import Mathlib

/-!
Verification of the pythonj translator (src/pythonj.py).

This file gives a shallow embedding of the core of the translator:

* the Java IR (`JavaExpr`, `JavaStatement`) with `ends_control_flow` and
  `block_simplify` (the dataclass post-init simplification is modelled by
  smart constructors `javaIfStatement`, `javaWhileStatement`,
  `javaForStatement`, `javaTryStatement`, `javaLabeledBlock`);
* the peephole helpers `unary_op`, `bool_value`, `chained_binary_op`,
  `if_statement`, `while_statement`;
* the constant pool (`EmitContext`, `emit_constant`) and the deterministic
  emission order of `EmitContext.emit_java` and `write_java`;
* `java_string_literal` (over raw code points, since surrogate code points
  are not representable in a Lean `String`);
* the lowering visitor `PythonjVisitor` state (`VState`) and a visitor
  (`visitStmt` / `visitExpr`) for the sub-language of the Python AST that
  the claims under study exercise: names, constants, comparisons, boolean
  operators, calls without starred or keyword arguments, assignment to a
  name, expression statements, return, pass, global, break, continue,
  if, while, for (name target), and module-level function definitions.

Each definition is translated from the corresponding code in
src/pythonj.py; comments name the source construct.  Definitions whose
names end in `Spec` restate a sentence of the specification in closed
form and are proved equal to the translated code.
-/

/-- The closed set of recognized built-in names (BUILTINS in the source). -/
def BUILTINS : List String :=
  ["abs", "all", "any", "bool", "bytearray", "bytes", "chr", "dict", "enumerate", "getattr",
   "hash", "hex", "int", "isinstance", "issubclass", "iter", "len", "list",
   "max", "min", "next", "object", "open", "ord", "print", "range", "repr", "reversed",
   "set", "slice", "sorted", "str", "sum", "tuple", "type", "zip",
   "ArithmeticError", "AssertionError", "IndexError", "KeyError", "LookupError",
   "StopIteration", "TypeError", "ValueError", "ZeroDivisionError"]

/-- Java variable name for the PyInt singleton with a given value (int_name). -/
def int_name (i : Int) : String :=
  if i < 0 then "int_singleton_neg" ++ toString (-i) else "int_singleton_" ++ toString i

/-- CHAR_ESCAPE from the source, over raw code points: the escape sequence
(as a list of code points) for the seven specially escaped characters. -/
def CHAR_ESCAPE (c : Nat) : Option (List Nat) :=
  if c = 34 then some [92, 34]        -- double quote
  else if c = 92 then some [92, 92]   -- backslash
  else if c = 10 then some [92, 110]  -- newline
  else if c = 13 then some [92, 114]  -- carriage return
  else if c = 9 then some [92, 116]   -- tab
  else if c = 8 then some [92, 98]    -- backspace
  else if c = 12 then some [92, 102]  -- form feed
  else none

/-- One lowercase hex digit as a code point. -/
def hexDigit (n : Nat) : Nat := if n < 10 then 48 + n else 87 + n

/-- The four hex digits of a BMP code point, as in the f-string \uXXXX form. -/
def hex4 (o : Nat) : List Nat :=
  [hexDigit (o / 4096 % 16), hexDigit (o / 256 % 16), hexDigit (o / 16 % 16), hexDigit (o % 16)]

/-- Body loop of java_string_literal: escape each code point or fail.
The source raises ValueError on a surrogate code point and fails an
assertion on a code point beyond the BMP; both are modelled as errors
(the repr of the offending string is dropped from the message). -/
def java_string_chars : List Nat → Except String (List Nat)
  | [] => Except.ok []
  | c :: rest =>
    match CHAR_ESCAPE c with
    | some esc => (java_string_chars rest).map (fun tl => esc ++ tl)
    | none =>
      if 0xD800 ≤ c ∧ c ≤ 0xDFFF then
        Except.error "cannot encode string containing surrogate code points"
      else if ¬ (c ≤ 0xFFFF) then
        Except.error "AssertionError: astral code point"
      else if 0x20 ≤ c ∧ c ≤ 0x7E then
        (java_string_chars rest).map (fun tl => c :: tl)
      else
        (java_string_chars rest).map (fun tl => [92, 117] ++ hex4 c ++ tl)

/-- java_string_literal from the source, over raw code points: wraps the
escaped body in double quotes, or fails as the source raises. -/
def java_string_literal (s : List Nat) : Except String (List Nat) :=
  (java_string_chars s).map (fun body => 34 :: (body ++ [34]))

/-- True when an Except result is a success (models: the call returned
instead of raising). -/
def exceptOk {ε α : Type} : Except ε α → Bool
  | Except.ok _ => true
  | Except.error _ => false

/-- Java expression IR: one constructor per JavaExpr dataclass in the source. -/
inductive JavaExpr where
  | intLit (value : Int) (suffix : String)          -- JavaIntLiteral
  | strLit (s : String)                             -- JavaStrLiteral
  | ident (name : String)                           -- JavaIdentifier
  | field (obj : JavaExpr) (fieldName : String)     -- JavaField
  | arrayAccess (obj index : JavaExpr)              -- JavaArrayAccess
  | unaryOp (op : String) (operand : JavaExpr)      -- JavaUnaryOp
  | binaryOp (op : String) (lhs rhs : JavaExpr)     -- JavaBinaryOp
  | condOp (cond tval fval : JavaExpr)              -- JavaCondOp
  | createObject (type : String) (args : List JavaExpr)   -- JavaCreateObject
  | createArray (type : String) (elts : List JavaExpr)    -- JavaCreateArray
  | methodCall (obj : JavaExpr) (method : String) (args : List JavaExpr) -- JavaMethodCall
  | assignExpr (lhs rhs : JavaExpr)                 -- JavaAssignExpr

/-- Java statement IR: one constructor per JavaStatement dataclass.
The blocks stored in compound statements are the (already simplified)
lists the smart constructors below produce. -/
inductive JavaStatement where
  | variableDecl (type name : String) (value : Option JavaExpr)  -- JavaVariableDecl
  | assignStmt (lhs rhs : JavaExpr)                              -- JavaAssignStatement
  | exprStmt (call : JavaExpr)                                   -- JavaExprStatement
  | breakStmt (name : Option String)                             -- JavaBreakStatement
  | continueStmt                                                 -- JavaContinueStatement
  | returnStmt (expr : JavaExpr)                                 -- JavaReturnStatement
  | throwStmt (expr : JavaExpr)                                  -- JavaThrowStatement
  | ifStmt (cond : JavaExpr) (body orelse : List JavaStatement)  -- JavaIfStatement
  | whileStmt (cond : JavaExpr) (body : List JavaStatement)      -- JavaWhileStatement
  | forStmt (initType initName : String) (initValue : JavaExpr) (cond : JavaExpr)
      (incrName : String) (incrValue : JavaExpr) (body : List JavaStatement) -- JavaForStatement
  | tryStmt (tryBody : List JavaStatement) (excType excName : Option String)
      (catchBody finallyBody : List JavaStatement)               -- JavaTryStatement
  | labeledBlock (name : String) (body : List JavaStatement)     -- JavaLabeledBlock

mutual

/-- ends_control_flow from the source: break, continue, return and throw end
control flow; an if ends control flow when both arms do; a try ends control
flow when its finally block does, or, with a catch clause, when try and
catch bodies both do, and, without a catch clause, when its try body does. -/
def ends_control_flow : JavaStatement → Bool
  | .breakStmt _ => true
  | .continueStmt => true
  | .returnStmt _ => true
  | .throwStmt _ => true
  | .ifStmt _ body orelse => block_ends_control_flow body && block_ends_control_flow orelse
  | .tryStmt tryBody excType _ catchBody finallyBody =>
      if block_ends_control_flow finallyBody then true
      else if excType.isSome then
        block_ends_control_flow tryBody && block_ends_control_flow catchBody
      else
        block_ends_control_flow tryBody
  | _ => false

/-- block_ends_control_flow: a block ends control flow when it is nonempty
and its last statement does. -/
def block_ends_control_flow : List JavaStatement → Bool
  | [] => false
  | [s] => ends_control_flow s
  | _ :: rest => block_ends_control_flow rest

end

/-- block_simplify: keep statements up to and including the first one that
ends control flow (the source loop appends each statement and stops after a
terminator). -/
def block_simplify : List JavaStatement → List JavaStatement
  | [] => []
  | s :: rest => s :: (if ends_control_flow s then [] else block_simplify rest)

/-- JavaIfStatement construction including its post-init block simplification. -/
def javaIfStatement (cond : JavaExpr) (body orelse : List JavaStatement) : JavaStatement :=
  .ifStmt cond (block_simplify body) (block_simplify orelse)

/-- JavaWhileStatement construction including its post-init block simplification. -/
def javaWhileStatement (cond : JavaExpr) (body : List JavaStatement) : JavaStatement :=
  .whileStmt cond (block_simplify body)

/-- JavaForStatement construction including its post-init block simplification. -/
def javaForStatement (initType initName : String) (initValue cond : JavaExpr)
    (incrName : String) (incrValue : JavaExpr) (body : List JavaStatement) : JavaStatement :=
  .forStmt initType initName initValue cond incrName incrValue (block_simplify body)

/-- JavaTryStatement construction including its post-init block simplification. -/
def javaTryStatement (tryBody : List JavaStatement) (excType excName : Option String)
    (catchBody finallyBody : List JavaStatement) : JavaStatement :=
  .tryStmt (block_simplify tryBody) excType excName
    (block_simplify catchBody) (block_simplify finallyBody)

/-- JavaLabeledBlock construction including its post-init block simplification. -/
def javaLabeledBlock (name : String) (body : List JavaStatement) : JavaStatement :=
  .labeledBlock name (block_simplify body)

/-- unary_op peephole: double negation of the true/false identifiers. -/
def unary_op (op : String) (operand : JavaExpr) : JavaExpr :=
  if op = "!" then
    match operand with
    | .ident "false" => .ident "true"
    | .ident "true" => .ident "false"
    | e => .unaryOp op e
  else .unaryOp op operand

/-- bool_value peephole: unwrap PyBool.create and the PyBool singletons,
otherwise call .boolValue(). -/
def bool_value (expr : JavaExpr) : JavaExpr :=
  match expr with
  | .methodCall (.ident "PyBool") "create" [x] => x
  | .field (.ident "PyBool") "false_singleton" => .ident "false"
  | .field (.ident "PyBool") "true_singleton" => .ident "true"
  | e => .methodCall e "boolValue" []

/-- chained_binary_op: left-associated chain of a binary operator
(the source asserts a nonempty list; the empty case is unreachable). -/
def chained_binary_op (op : String) : List JavaExpr → JavaExpr
  | [] => .ident "__assert_nonempty__"
  | e :: rest => rest.foldl (fun acc t => .binaryOp op acc t) e

/-- if_statement peephole: constant-condition folding. -/
def if_statement (cond : JavaExpr) (body orelse : List JavaStatement) : List JavaStatement :=
  match cond with
  | .ident "true" => body
  | .ident "false" => orelse
  | c => [javaIfStatement c body orelse]

/-- while_statement peephole: a constant-false condition emits nothing. -/
def while_statement (cond : JavaExpr) (body : List JavaStatement) : List JavaStatement :=
  match cond with
  | .ident "false" => []
  | c => [javaWhileStatement c body]

/-- The constant pool (EmitContext): a set of integers and insertion-ordered
maps from string and from byte-sequence literals to their assigned indices.
The Python set and dicts are modelled as duplicate-free association lists. -/
structure EmitContext where
  all_ints : List Int
  all_strings : List (String × Nat)
  all_bytes : List (List Nat × Nat)

/-- The empty constant pool (EmitContext.__init__). -/
def emptyEmitContext : EmitContext := ⟨[], [], []⟩

/-- Association-list lookup used for the pool dictionaries. -/
def assocFind {α : Type} [BEq α] (l : List (α × Nat)) (k : α) : Option Nat :=
  match l with
  | [] => none
  | p :: rest => if p.1 == k then some p.2 else assocFind rest k

/-- Python literal values reaching emit_constant (None, bool, int, str, bytes).
Strings are Lean strings: only the pool behaviour is studied here, so the
loss of surrogate code points is irrelevant (see java_string_literal for
the encoding-level model). -/
inductive PyConst where
  | none
  | bool (b : Bool)
  | int (i : Int)
  | str (s : String)
  | bytes (b : List Nat)
deriving DecidableEq

/-- emit_constant from the source: lower a literal into a JavaExpr and record
any required singleton in the pool.  Integers 0 and 1 and the empty string
use runtime singletons and never touch the pool. -/
def emit_constant (value : PyConst) (ctx : EmitContext) : EmitContext × JavaExpr :=
  match value with
  | .none => (ctx, .field (.ident "PyNone") "singleton")
  | .bool b => (ctx, .field (.ident "PyBool") (if b then "true_singleton" else "false_singleton"))
  | .int i =>
      if 0 ≤ i ∧ i ≤ 1 then (ctx, .field (.ident "PyInt") ("singleton_" ++ toString i))
      else
        let ints := if ctx.all_ints.contains i then ctx.all_ints else ctx.all_ints ++ [i]
        ({ ctx with all_ints := ints }, .ident (int_name i))
  | .str s =>
      if s = "" then (ctx, .field (.ident "PyString") "empty_singleton")
      else
        match assocFind ctx.all_strings s with
        | some k => (ctx, .ident ("str_singleton_" ++ toString k))
        | none =>
            ({ ctx with all_strings := ctx.all_strings ++ [(s, ctx.all_strings.length)] },
             .ident ("str_singleton_" ++ toString ctx.all_strings.length))
  | .bytes b =>
      match assocFind ctx.all_bytes b with
      | some k => (ctx, .ident ("bytes_singleton_" ++ toString k))
      | none =>
          ({ ctx with all_bytes := ctx.all_bytes ++ [(b, ctx.all_bytes.length)] },
           .ident ("bytes_singleton_" ++ toString ctx.all_bytes.length))

/-- Comparison operators of the source AST handled by visit_Compare. -/
inductive CmpOp where
  | lt | le | gt | ge | eq | ne | isOp | isNotOp | inOp | notInOp
deriving DecidableEq

/-- Boolean operator kind (ast.And / ast.Or). -/
inductive BoolKind where
  | and | or
deriving DecidableEq

/-- The Python expression sub-language exercised by the claims: names,
constants, comparisons, boolean operators and calls without starred or
keyword arguments. -/
inductive PyExpr where
  | name (id : String)                                        -- ast.Name
  | constant (value : PyConst)                                -- ast.Constant
  | compare (left : PyExpr) (pairs : List (CmpOp × PyExpr))   -- ast.Compare (ops zipped with comparators; the source asserts the lists have equal nonzero length)
  | boolop (op : BoolKind) (values : List PyExpr)             -- ast.BoolOp (the source asserts at least two values)
  | call (func : PyExpr) (args : List PyExpr)                 -- ast.Call without keywords/starred

/-- The Python statement sub-language exercised by the claims. -/
inductive PyStmt where
  | assign (target : String) (value : PyExpr)     -- ast.Assign with a single Name target
  | exprStmt (value : PyExpr)                     -- ast.Expr
  | ret (value : Option PyExpr)                   -- ast.Return
  | pass                                          -- ast.Pass
  | brk                                           -- ast.Break
  | cont                                          -- ast.Continue
  | sGlobal (names : List String)                 -- ast.Global
  | sIf (test : PyExpr) (body orelse : List PyStmt)              -- ast.If
  | sWhile (test : PyExpr) (body orelse : List PyStmt)           -- ast.While
  | sFor (target : String) (iter : PyExpr) (body orelse : List PyStmt) -- ast.For with a Name target
  | funcDef (fname : String) (args : List String) (body : List PyStmt) -- ast.FunctionDef without decorators, defaults, annotations, varargs

/-- The PythonjVisitor translation state.  The Python attributes
`self.names` and `self.code` alias either the module-scope object or a
function-local one; the aliasing is modelled by `in_function` (names) and
by `local_block` (code): when `local_block` is `none`, the current
statement list is `global_code` itself. -/
structure VState where
  n_errors : Nat
  n_temps : Nat
  global_names : List String
  local_names : List String
  explicit_globals : List String
  global_code : List JavaStatement
  local_block : Option (List JavaStatement)
  emit_ctx : EmitContext
  in_function : Bool
  used_expr_discard : Bool
  break_name : Option String
  functions : List (String × List JavaStatement)
  allow_intrinsics : Bool

/-- PythonjVisitor.__init__: the initial per-file state.  The emitted
nested-class text stored in `functions` is modelled by the method-body
statement list it renders (`func_code`), since rendering is per function
and order preserving. -/
def initState : VState :=
  { n_errors := 0
    n_temps := 0
    global_names := []
    local_names := []
    explicit_globals := []
    global_code := [.variableDecl "PyObject" "expr_discard" none]
    local_block := none
    emit_ctx := emptyEmitContext
    in_function := false
    used_expr_discard := false
    break_name := none
    functions := []
    allow_intrinsics := false }

/-- The statement list `self.code` currently aliases. -/
def curCode (st : VState) : List JavaStatement :=
  match st.local_block with
  | none => st.global_code
  | some b => b

/-- Append statements to the current statement list (self.code.extend). -/
def pushCodes (l : List JavaStatement) (st : VState) : VState :=
  match st.local_block with
  | none => { st with global_code := st.global_code ++ l }
  | some b => { st with local_block := some (b ++ l) }

/-- Append one statement to the current statement list (self.code.append). -/
def pushCode (s : JavaStatement) (st : VState) : VState := pushCodes [s] st

/-- The name assigned by make_temp for a given counter value. -/
def tempName (n : Nat) : String := "temp" ++ toString n

/-- make_temp: assign and return a new temporary variable name. -/
def make_temp (st : VState) : VState × String :=
  ({ st with n_temps := st.n_temps + 1 }, tempName st.n_temps)

/-- Insertion into a Python set modelled as a duplicate-free list. -/
def addName (n : String) (l : List String) : List String :=
  if l.contains n then l else l ++ [n]

/-- self.names.add: adds to the function-local set inside a function and to
the module-scope set otherwise (the aliasing invariant of the source). -/
def namesAdd (n : String) (st : VState) : VState :=
  if st.in_function then { st with local_names := addName n st.local_names }
  else { st with global_names := addName n st.global_names }

/-- ident_expr from the source: intrinsic null, then built-ins, then the
function-local slot for names neither at module scope nor declared global,
then the module slot. -/
def ident_expr (st : VState) (name : String) : JavaExpr :=
  if st.allow_intrinsics && name == "__pythonj_null__" then .ident "null"
  else if BUILTINS.contains name then .field (.ident "Runtime") ("pyglobal_" ++ name)
  else if st.in_function && !st.global_names.contains name && !st.explicit_globals.contains name then
    .ident ("pylocal_" ++ name)
  else .ident ("pyglobal_" ++ name)

/-- Dictionary update for self.functions (insertion order kept, existing key
overwritten in place, as for a Python dict). -/
def assocSet (l : List (String × List JavaStatement)) (k : String) (v : List JavaStatement) :
    List (String × List JavaStatement) :=
  if l.any (fun p => p.1 == k) then l.map (fun p => if p.1 == k then (k, v) else p)
  else l ++ [(k, v)]

/-- Does the Call node name the __pythonj_next__ intrinsic. -/
def isPyNextName : PyExpr → Bool
  | .name s => s == "__pythonj_next__"
  | _ => false

/-- One pairwise test of visit_Compare (the operator dispatch of the loop
body): identity maps to ==/!=, membership to the in method, equality to the
equals method, ordering to lt/le/gt/ge. -/
def compare_term (op : CmpOp) (lhs rhs : JavaExpr) : JavaExpr :=
  match op with
  | .isOp => .binaryOp "==" lhs rhs
  | .isNotOp => .binaryOp "!=" lhs rhs
  | .inOp => .methodCall lhs "in" [rhs]
  | .notInOp => unary_op "!" (.methodCall lhs "in" [rhs])
  | .eq => .methodCall lhs "equals" [rhs]
  | .ne => unary_op "!" (.methodCall lhs "equals" [rhs])
  | .lt => .methodCall lhs "lt" [rhs]
  | .le => .methodCall lhs "le" [rhs]
  | .gt => .methodCall lhs "gt" [rhs]
  | .ge => .methodCall lhs "ge" [rhs]

/-- emit_bind for a Name target: add the name to the current scope set and
yield a direct assignment (the target is visited after the add). -/
def emit_bind_name (tgt : String) (value : JavaExpr) (st : VState) :
    VState × List JavaStatement :=
  let st1 := namesAdd tgt st
  (st1, [.assignStmt (ident_expr st1 tgt) value])

mutual

/-- The expression part of the lowering visitor (visit dispatch over the
embedded expression sub-language). -/
def visitExpr : PyExpr → VState → VState × JavaExpr
  | .name id, st => (st, ident_expr st id)   -- visit_Name
  | .constant c, st =>                        -- visit_Constant for supported literal types
      let r := emit_constant c st.emit_ctx
      ({ st with emit_ctx := r.1 }, r.2)
  | .compare left pairs, st =>                -- visit_Compare
      let r1 := visitExpr left st
      let r2 := compareLoop r1.2 pairs r1.1
      (r2.1, .methodCall (.ident "PyBool") "create" [chained_binary_op "&&" r2.2])
  | .boolop op values, st => emit_bool_op op values st  -- visit_BoolOp
  | .call f args, st =>                       -- visit_Call (no keywords, no starred args)
      if st.allow_intrinsics && isPyNextName f then
        match args with
        | [a] =>
            let r := visitExpr a st
            (r.1, .methodCall r.2 "next" [])
        | _ => (st, .ident "__assert_single_arg__")  -- the source asserts one argument
      else
        let rf := visitExpr f st
        let ra := visitExprList args rf.1
        (ra.1, .methodCall rf.2 "call" [.createArray "PyObject" ra.2, .ident "null"])

/-- Lowering of an argument list in order (emit_star_expanded without any
starred element builds a direct PyObject array from the visited elements). -/
def visitExprList : List PyExpr → VState → VState × List JavaExpr
  | [], st => (st, [])
  | e :: es, st =>
      let r := visitExpr e st
      let rs := visitExprList es r.1
      (rs.1, r.2 :: rs.2)

/-- The loop of visit_Compare: visit each comparator; every comparand except
the last is cached in a fresh temporary (declared in the current block) via
assignment-as-expression, and becomes the left operand of the next test. -/
def compareLoop (lhs : JavaExpr) : List (CmpOp × PyExpr) → VState → VState × List JavaExpr
  | [], st => (st, [])
  | (op, comp) :: rest, st =>
      let r := visitExpr comp st
      match rest with
      | [] => (r.1, [compare_term op lhs r.2])
      | _ :: _ =>
          let mt := make_temp r.1
          let st2 := pushCode (.variableDecl "PyObject" mt.2 none) mt.1
          let rhs := JavaExpr.assignExpr (.ident mt.2) r.2
          let rr := compareLoop (.ident mt.2) rest st2
          (rr.1, compare_term op lhs rhs :: rr.2)

/-- emit_bool_op from the source: one value lowers directly; otherwise a
fresh temporary is declared, the first value is visited, the remainder is
lowered recursively (right associated), and the conditional keeps the boxed
operand: (t = a).boolValue() ? rest : t for and, mirrored for or. -/
def emit_bool_op (op : BoolKind) : List PyExpr → VState → VState × JavaExpr
  | [], st => (st, .ident "__assert_nonempty__")   -- unreachable: visit_BoolOp asserts two or more values
  | [v], st => visitExpr v st
  | v :: vs, st =>
      let mt := make_temp st
      let st2 := pushCode (.variableDecl "PyObject" mt.2 none) mt.1
      let rl := visitExpr v st2
      let rr := emit_bool_op op vs rl.1
      match op with
      | .and => (rr.1, .condOp (bool_value (.assignExpr (.ident mt.2) rl.2)) rr.2 (.ident mt.2))
      | .or => (rr.1, .condOp (bool_value (.assignExpr (.ident mt.2) rl.2)) (.ident mt.2) rr.2)

end

/-- Stable insertion into a sorted list: the inserted element goes before
the first element it compares less-or-equal to (models Python sorted()
stability; structurally recursive so that closed terms evaluate). -/
def insertSorted {a : Type} (le : a → a → Bool) (x : a) : List a → List a
  | [] => [x]
  | y :: ys => if le x y then x :: y :: ys else y :: insertSorted le x ys

/-- Python sorted() with a boolean comparison: stable insertion sort. -/
def pySorted {a : Type} (le : a → a → Bool) : List a → List a
  | [] => []
  | x :: xs => insertSorted le x (pySorted le xs)

/-- The method body assembled by visit_FunctionDef (lines building func_code):
kwargs rejection, arity check, one initialized declaration per formal
parameter, the scratch-discard declaration when used, one uninitialized
declaration per name in the (sorted) current scope set, the lowered body,
an implicit return of None, then block simplification. -/
def func_code (fname : String) (args : List String) (used : Bool) (names : List String)
    (bodyJ : List JavaStatement) : List JavaStatement :=
  let n_args : Int := Int.ofNat args.length
  block_simplify (
    if_statement
      (.binaryOp "&&" (.binaryOp "!=" (.ident "kwargs") (.ident "null"))
        (bool_value (.ident "kwargs")))
      [.throwStmt (.createObject "IllegalArgumentException"
        [.strLit (fname ++ "() does not accept kwargs")])] []
    ++ if_statement
      (.binaryOp "!=" (.field (.ident "args") "length") (.intLit n_args ""))
      [.throwStmt (.methodCall (.ident "Runtime") "raiseUserExactArgs"
        ([.ident "args", .intLit n_args "", .strLit fname] ++ args.map (fun a => .strLit a)))] []
    ++ (args.enum.map fun p =>
        .variableDecl "PyObject" ("pylocal_" ++ p.2)
          (some (.arrayAccess (.ident "args") (.intLit (Int.ofNat p.1) ""))))
    ++ (if used then [.variableDecl "PyObject" "expr_discard" none] else [])
    ++ (pySorted (fun a b => a ≤ b) names).map
        (fun n => .variableDecl "PyObject" ("pylocal_" ++ n) none)
    ++ bodyJ
    ++ [.returnStmt (.field (.ident "PyNone") "singleton")])

/-- Restore the statement list saved by new_block, extracting the fresh
block that was produced (the exit path of the context manager). -/
def popBlock (saved : Option (List JavaStatement)) (st : VState) :
    VState × List JavaStatement :=
  ({ st with local_block := saved },
   match st.local_block with
   | some b => b
   | none => [])

mutual

/-- The statement part of the lowering visitor (visit dispatch over the
embedded statement sub-language).  The new_block context manager of the
source is modelled by entering a fresh `local_block` and restoring the
saved one with `popBlock`. -/
def visitStmt : PyStmt → VState → VState
  | .pass, st => st                                  -- visit_Pass
  | .brk, st => pushCode (.breakStmt st.break_name) st   -- visit_Break
  | .cont, st => pushCode .continueStmt st           -- visit_Continue
  | .ret v, st =>                                    -- visit_Return (the source asserts in_function)
      match v with
      | some e =>
          let r := visitExpr e st
          pushCode (.returnStmt r.2) r.1
      | none =>
          let r := emit_constant .none st.emit_ctx
          pushCode (.returnStmt r.2) { st with emit_ctx := r.1 }
  | .assign target value, st =>                      -- visit_Assign with one Name target
      let r := visitExpr value st
      let rb := emit_bind_name target r.2 r.1
      pushCodes rb.2 rb.1
  | .exprStmt e, st =>                               -- visit_Expr
      let r := visitExpr e st
      match r.2 with
      | .methodCall o m a => pushCode (.exprStmt (.methodCall o m a)) r.1
      | .createObject t a => pushCode (.exprStmt (.createObject t a)) r.1
      | v =>
          { pushCode (.assignStmt (.ident "expr_discard") v) r.1 with used_expr_discard := true }
  | .sGlobal ns, st =>                               -- visit_Global
      if !st.in_function then { st with n_errors := st.n_errors + 1 }
      else { st with explicit_globals := ns.foldl (fun acc n => addName n acc) st.explicit_globals }
  | .sIf test body orelse, st =>                     -- visit_If
      let rt := visitExpr test st
      let cond := bool_value rt.2
      let rb := popBlock rt.1.local_block (visitBlock body { rt.1 with local_block := some [] })
      let ro := popBlock rb.1.local_block (visitBlock orelse { rb.1 with local_block := some [] })
      pushCodes (if_statement cond rb.2 ro.2) ro.1
  | .sWhile test body orelse, st =>                  -- visit_While
      let rt := visitExpr test st
      let cond := bool_value rt.2
      let rbn : VState × Option String :=
        if orelse.isEmpty then (rt.1, none)
        else
          let mt := make_temp rt.1
          (mt.1, some mt.2)
      let savedBreak := rbn.1.break_name
      let rb := popBlock rbn.1.local_block
        (visitBlock body { rbn.1 with break_name := rbn.2, local_block := some [] })
      let st4 := { rb.1 with break_name := savedBreak }
      let loop := while_statement cond rb.2
      if orelse.isEmpty then pushCodes loop st4
      else
        let ro := popBlock st4.local_block (visitBlock orelse { st4 with local_block := some [] })
        match rbn.2 with
        | some bn => pushCode (javaLabeledBlock bn (loop ++ ro.2)) ro.1
        | none => ro.1                               -- unreachable: the source asserts the label exists
  | .sFor target iter body orelse, st =>             -- visit_For
      let rbn : VState × Option String :=
        if orelse.isEmpty then (st, none)
        else
          let mt := make_temp st
          (mt.1, some mt.2)
      let mt0 := make_temp rbn.1
      let mt1 := make_temp mt0.1
      let ri := visitExpr iter mt1.1
      let st5 := pushCode (.variableDecl "var" mt0.2 (some (.methodCall ri.2 "iter" []))) ri.1
      let savedBreak := st5.break_name
      let rb := popBlock st5.local_block
        (visitBlock body { st5 with break_name := rbn.2, local_block := some [] })
      let st7 := { rb.1 with break_name := savedBreak }
      let rbind := emit_bind_name target (.ident mt1.2) st7
      let loop := javaForStatement "var" mt1.2 (.methodCall (.ident mt0.2) "next" [])
        (.binaryOp "!=" (.ident mt1.2) (.ident "null"))
        mt1.2 (.methodCall (.ident mt0.2) "next" [])
        (rbind.2 ++ rb.2)
      if orelse.isEmpty then pushCode loop rbind.1
      else
        let ro := popBlock rbind.1.local_block
          (visitBlock orelse { rbind.1 with local_block := some [] })
        match rbn.2 with
        | some bn => pushCode (javaLabeledBlock bn ([loop] ++ ro.2)) ro.1
        | none => ro.1                               -- unreachable: the source asserts the label exists
  | .funcDef fname args body, st =>                  -- visit_FunctionDef
      if st.in_function then { st with n_errors := st.n_errors + 1 }  -- nested defs unsupported
      else
        let st1 := { st with global_names := addName fname st.global_names }
        let st2 := { st1 with global_code := st1.global_code ++
          [JavaStatement.assignStmt (.ident ("pyglobal_" ++ fname))
            (.createObject ("pyfunc_" ++ fname) [])] }
        let st3 := { st2 with in_function := true, used_expr_discard := false,
                              local_names := [], explicit_globals := [] }
        let savedTemps := st3.n_temps
        let rb := popBlock st3.local_block
          (visitBlock body { st3 with n_temps := 0, local_block := some [] })
        let st6 := { rb.1 with n_temps := savedTemps }
        let fc := func_code fname args st6.used_expr_discard st6.local_names rb.2
        let st7 := { st6 with functions := assocSet st6.functions fname fc }
        { st7 with in_function := false }

/-- Lower a list of statements in order (the body loops of the visitor). -/
def visitBlock : List PyStmt → VState → VState
  | [], st => st
  | s :: rest, st => visitBlock rest (visitStmt s st)

end

/-- The new_block pattern as a function: lower statements into a fresh
statement list, restore the previous one, and return the fresh block. -/
def runBlock (l : List PyStmt) (st : VState) : VState × List JavaStatement :=
  popBlock st.local_block (visitBlock l { st with local_block := some [] })

/-- visit_Module: lower the top-level statements in order. -/
def visit_Module (body : List PyStmt) (st : VState) : VState := visitBlock body st

/-- One constant-pool declaration of the emit phase, keyed by the literal it
declares (its textual rendering is an injective image of this entry, so the
emission order facts are stated at this level). -/
inductive PoolEntry where
  | intE (i : Int)
  | strE (s : String) (idx : Nat)
  | bytesE (b : List Nat) (idx : Nat)

/-- Boolean lexicographic order on byte sequences (Python bytes comparison),
used to model sorted() over the bytes pool. -/
def bytesLe : List Nat → List Nat → Bool
  | [], _ => true
  | _ :: _, [] => false
  | a :: as, b :: bs => a < b || (a == b && bytesLe as bs)

/-- EmitContext.emit_java: the declarations in emission order — integers
sorted numerically, then strings sorted by literal value, then byte
sequences sorted by literal value (sorted() over the Python set and dicts). -/
def emit_java_entries (ctx : EmitContext) : List PoolEntry :=
  (pySorted (fun a b => a ≤ b) ctx.all_ints).map (fun i => PoolEntry.intE i)
  ++ (pySorted (fun a b => a.1 ≤ b.1) ctx.all_strings).map (fun p => PoolEntry.strE p.1 p.2)
  ++ (pySorted (fun a b => bytesLe a.1 b.1) ctx.all_bytes).map (fun p => PoolEntry.bytesE p.1 p.2)

/-- The order in which write_java emits the user-function nested classes:
sorted(self.functions.items()), i.e. sorted by function name. -/
def write_java_functions (st : VState) : List (String × List JavaStatement) :=
  pySorted (fun a b => a.1 ≤ b.1) st.functions

/-- The order in which write_java emits the module-global declarations:
sorted(self.global_names). -/
def write_java_globals (st : VState) : List String :=
  pySorted (fun a b => a ≤ b) st.global_names

/-- The main-method body written by write_java: the simplified module code. -/
def write_java_main_body (st : VState) : List JavaStatement :=
  block_simplify st.global_code

/-! Claim-support definitions. -/

/-- Number of declarations of a given variable name in a statement list. -/
def countDeclsNamed (n : String) (l : List JavaStatement) : Nat :=
  l.countP (fun s => match s with
    | .variableDecl _ nm _ => nm == n
    | _ => false)

/-- Number of initialized declarations of a given variable name. -/
def countInitDeclsNamed (n : String) (l : List JavaStatement) : Nat :=
  l.countP (fun s => match s with
    | .variableDecl _ nm (some _) => nm == n
    | _ => false)

/-- Number of uninitialized declarations of a given variable name. -/
def countUninitDeclsNamed (n : String) (l : List JavaStatement) : Nat :=
  l.countP (fun s => match s with
    | .variableDecl _ nm none => nm == n
    | _ => false)

/-- The method body recorded for a function by the lowering pipeline. -/
def lookupFunction (st : VState) (fname : String) : List JavaStatement :=
  match st.functions.find? (fun p => p.1 == fname) with
  | some p => p.2
  | none => []

/-- exceptOk is unchanged by mapping over the success value. -/
theorem exceptOk_map {ε α β : Type} (f : α → β) (e : Except ε α) :
    exceptOk (e.map f) = exceptOk e := by
  cases e <;> rfl

/-- Any code point with an entry in CHAR_ESCAPE is an ASCII control or
punctuation character, in particular below the surrogate range. -/
theorem CHAR_ESCAPE_isSome_lt (c : Nat) (h : (CHAR_ESCAPE c).isSome) : c < 0xD800 := by
  unfold CHAR_ESCAPE at h
  split_ifs at h <;> first | omega | simp at h

/-! C1.  The spec says the uninitialized `PyObject pylocal_<name>`
declarations are emitted only for assigned local names *other than* the
formal parameters, so every `pylocal_` name would be declared at most once.
The code instead iterates over the whole assigned-name set, which contains
a formal parameter as soon as the body assigns to it, so that parameter is
declared twice (`PyObject pylocal_x = args[0];` and `PyObject pylocal_x;`)
and the emitted Java is rejected by javac.  The theorem evaluates the
translation of `def f(x): x = 1` and exhibits the double declaration. -/

/-- C1: translating `def f(x): x = 1` declares `pylocal_x` twice in the
emitted method body — once initialized from `args[0]` as a parameter and
once uninitialized from the assigned-name loop — contradicting the spec
sentence that uninitialized declarations cover only non-parameter names. -/
theorem funcdef_param_reassignment_double_declaration :
    countDeclsNamed "pylocal_x"
        (lookupFunction
          (visitStmt (.funcDef "f" ["x"] [.assign "x" (.constant (.int 1))]) initState) "f") = 2 ∧
    countInitDeclsNamed "pylocal_x"
        (lookupFunction
          (visitStmt (.funcDef "f" ["x"] [.assign "x" (.constant (.int 1))]) initState) "f") = 1 ∧
    countUninitDeclsNamed "pylocal_x"
        (lookupFunction
          (visitStmt (.funcDef "f" ["x"] [.assign "x" (.constant (.int 1))]) initState) "f") = 1 := by
  exact ⟨rfl, rfl, rfl⟩

/-! C2.  The spec claims the visitor never raises from a recoverable input
error — explicitly including a string literal containing a surrogate code
point — but java_string_literal raises ValueError on a surrogate (and fails
an assertion on an astral code point); the exception propagates out of
JavaStrLiteral.emit_java, which visit_FunctionDef and write_java invoke. -/

/-- C2 counterexample: on a string consisting of the single surrogate code
point U+D800, java_string_literal raises (models the `raise ValueError`
at source line 70) instead of printing a diagnostic and continuing. -/
theorem java_string_literal_surrogate_raises :
    java_string_literal [0xD800]
      = Except.error "cannot encode string containing surrogate code points" ∧
    exceptOk (java_string_literal [0xD800]) = false := ⟨rfl, rfl⟩

/-- C2 (amended): java_string_literal succeeds exactly when every code point
of the string is outside the surrogate range and within the BMP; on any
surrogate or astral code point it raises, and every other recoverable error
path goes through PythonjVisitor.error without raising. -/
theorem java_string_literal_ok_characterization (s : List Nat) :
    exceptOk (java_string_literal s)
      = s.all (fun c => decide (c < 0xD800) || (decide (0xDFFF < c) && decide (c ≤ 0xFFFF))) := by
  unfold java_string_literal
  rw [exceptOk_map]
  induction s with
  | nil => rfl
  | cons c rest ih =>
    unfold java_string_chars
    rcases hE : CHAR_ESCAPE c with _ | esc
    · by_cases hs : 0xD800 ≤ c ∧ c ≤ 0xDFFF
      · have h1 : decide (c < 0xD800) = false := by
          simp only [decide_eq_false_iff_not]
          omega
        have h2 : decide (0xDFFF < c) = false := by
          simp only [decide_eq_false_iff_not]
          omega
        simp [hs, h1, h2, exceptOk]
      · by_cases ha : c ≤ 0xFFFF
        · have hcp : (decide (c < 0xD800) || (decide (0xDFFF < c) && decide (c ≤ 0xFFFF)))
              = true := by
            rcases Nat.lt_or_ge c 0xD800 with h | h
            · simp [h]
            · have h3 : 0xDFFF < c := by omega
              simp [h3, ha]
          by_cases hpr : 0x20 ≤ c ∧ c ≤ 0x7E
          · simp only [if_neg hs, if_neg (by omega : ¬ ¬ (c ≤ 0xFFFF)), if_pos hpr,
              exceptOk_map, List.all_cons, hcp, Bool.true_and]
            exact ih
          · simp only [if_neg hs, if_neg (by omega : ¬ ¬ (c ≤ 0xFFFF)), if_neg hpr,
              exceptOk_map, List.all_cons, hcp, Bool.true_and]
            exact ih
        · have h1 : decide (c < 0xD800) = false := by
            simp only [decide_eq_false_iff_not]
            omega
          have h2 : decide (c ≤ 0xFFFF) = false := by
            simp only [decide_eq_false_iff_not]
            omega
          simp [hs, ha, h1, h2, exceptOk]
    · have hlt : c < 0xD800 := CHAR_ESCAPE_isSome_lt c (by simp [hE])
      simp only [exceptOk_map, List.all_cons]
      have h1 : decide (c < 0xD800) = true := by simp [hlt]
      simp only [h1, Bool.true_or, Bool.true_and]
      exact ih

/-! C3.  ends_control_flow of a try statement. -/

/-- C3 counterexample: the claim states that a try statement with no catch
clause and a finally block that does not end control flow never ends
control flow, regardless of its try body; the code instead returns the try
body status in that case (source lines 340-341), so a catch-less try whose
body returns does end control flow. -/
theorem try_no_catch_ends_with_body :
    ¬ (∀ (tb : List JavaStatement) (et en : Option String) (cb fb : List JavaStatement),
        ends_control_flow (.tryStmt tb et en cb fb)
          = (block_ends_control_flow fb
             || (et.isSome && (block_ends_control_flow tb && block_ends_control_flow cb)))) := by
  intro h
  have := h [.returnStmt (.field (.ident "PyNone") "singleton")] none none [] []
  simp [ends_control_flow, block_ends_control_flow] at this

/-- C3 (amended): a try statement ends control flow exactly when its finally
block ends control flow, or, when a catch clause exists, when its try body
and its catch body both end control flow, or, when no catch clause exists,
when its try body ends control flow. -/
theorem try_ends_control_flow_characterization
    (tb : List JavaStatement) (et en : Option String) (cb fb : List JavaStatement) :
    ends_control_flow (.tryStmt tb et en cb fb)
      = (block_ends_control_flow fb
         || (if et.isSome then block_ends_control_flow tb && block_ends_control_flow cb
             else block_ends_control_flow tb)) := by
  show (if block_ends_control_flow fb then true
        else if et.isSome then block_ends_control_flow tb && block_ends_control_flow cb
        else block_ends_control_flow tb) = _
  by_cases hf : block_ends_control_flow fb <;> simp [hf]

/-! C7.  Block simplification. -/

/-- No statement of the list follows one that ends control flow (only the
last statement, if any, may end control flow). -/
def NoDeadTail : List JavaStatement → Prop
  | [] => True
  | [_] => True
  | s :: rest => ends_control_flow s = false ∧ NoDeadTail rest

/-- block_simplify keeps exactly the prefix of the list up to and including
the first statement that ends control flow (findIdx returns the length when
no statement does, so the whole list is kept in that case). -/
theorem block_simplify_eq_take (bs : List JavaStatement) :
    block_simplify bs = bs.take (bs.findIdx (fun s => ends_control_flow s) + 1) := by
  induction bs with
  | nil => rfl
  | cons s rest ih =>
    cases h : ends_control_flow s
    · simp [block_simplify, List.findIdx_cons, h, ih, List.take_succ_cons]
    · simp [block_simplify, List.findIdx_cons, h]

/-- block_simplify leaves no statement after a control-flow terminator. -/
theorem block_simplify_noDeadTail (bs : List JavaStatement) :
    NoDeadTail (block_simplify bs) := by
  induction bs with
  | nil => trivial
  | cons s rest ih =>
    cases h : ends_control_flow s
    · have hcons : block_simplify (s :: rest) = s :: block_simplify rest := by
        simp [block_simplify, h]
      rw [hcons]
      rcases hr : block_simplify rest with _ | ⟨t, ts⟩
      · trivial
      · rw [hr] at ih
        exact ⟨h, ih⟩
    · have hone : block_simplify (s :: rest) = [s] := by
        simp [block_simplify, h]
      rw [hone]
      trivial

/-- C7: every compound-statement constructor stores simplified blocks; a
simplified block is exactly the prefix of the input up to and including its
first control-flow-terminating statement (the whole list when none
terminates); no retained statement follows a terminator; and the emitted
function bodies (func_code) and module body (write_java_main_body) satisfy
the same property. -/
theorem compound_constructors_simplify_blocks :
    (∀ bs : List JavaStatement,
        block_simplify bs = bs.take (bs.findIdx (fun s => ends_control_flow s) + 1)) ∧
    (∀ bs : List JavaStatement, NoDeadTail (block_simplify bs)) ∧
    (∀ cond body orelse, javaIfStatement cond body orelse
        = .ifStmt cond (block_simplify body) (block_simplify orelse)) ∧
    (∀ cond body, javaWhileStatement cond body = .whileStmt cond (block_simplify body)) ∧
    (∀ t n iv cond i incr body, javaForStatement t n iv cond i incr body
        = .forStmt t n iv cond i incr (block_simplify body)) ∧
    (∀ tb et en cb fb, javaTryStatement tb et en cb fb
        = .tryStmt (block_simplify tb) et en (block_simplify cb) (block_simplify fb)) ∧
    (∀ n body, javaLabeledBlock n body = .labeledBlock n (block_simplify body)) ∧
    (∀ fname args used names bodyJ, NoDeadTail (func_code fname args used names bodyJ)) ∧
    (∀ st : VState, NoDeadTail (write_java_main_body st)) := by
  refine ⟨block_simplify_eq_take, block_simplify_noDeadTail,
    fun _ _ _ => rfl, fun _ _ => rfl, fun _ _ _ _ _ _ _ => rfl, fun _ _ _ _ _ => rfl,
    fun _ _ => rfl, fun _ _ _ _ _ => ?_, fun _ => ?_⟩
  · exact block_simplify_noDeadTail _
  · exact block_simplify_noDeadTail _

/-! C8.  The constant pool. -/

/-- Process a list of literals through emit_constant, accumulating the pool
(the pool state a translation unit reaches after lowering its literals in
order). -/
def processConsts : List PyConst → EmitContext → EmitContext
  | [], ctx => ctx
  | c :: cs, ctx => processConsts cs (emit_constant c ctx).1

theorem assocFind_append_of_some {α : Type} [BEq α] (l t : List (α × Nat)) (k : α) (n : Nat)
    (h : assocFind l k = some n) : assocFind (l ++ t) k = some n := by
  induction l with
  | nil => simp [assocFind] at h
  | cons p rest ih =>
    cases hp : p.1 == k
    · rw [assocFind, hp] at h
      simp only [Bool.false_eq_true, if_false] at h
      rw [List.cons_append, assocFind, hp]
      simp only [Bool.false_eq_true, if_false]
      exact ih h
    · rw [assocFind, hp] at h
      simp only [if_true] at h
      rw [List.cons_append, assocFind, hp]
      simp only [if_true]
      exact h

theorem assocFind_eq_none_iff {α : Type} [BEq α] [LawfulBEq α]
    (l : List (α × Nat)) (k : α) :
    assocFind l k = none ↔ k ∉ l.map Prod.fst := by
  induction l with
  | nil => simp [assocFind]
  | cons p rest ih =>
    cases hp : p.1 == k
    · rw [assocFind, hp]
      simp only [Bool.false_eq_true, if_false]
      rw [ih]
      have hne : ¬ p.1 = k := by
        intro h
        rw [h] at hp
        simp at hp
      have hk : ¬ k = p.1 := fun h => hne h.symm
      simp [List.map_cons, List.mem_cons, not_or, hk]
    · rw [assocFind, hp]
      have heq : p.1 = k := (beq_iff_eq (a := p.1) (b := k)).mp hp
      simp [List.map_cons, List.mem_cons, heq]

theorem assocFind_append_self {α : Type} [BEq α] [LawfulBEq α]
    (l : List (α × Nat)) (k : α) (n : Nat) (h : assocFind l k = none) :
    assocFind (l ++ [(k, n)]) k = some n := by
  induction l with
  | nil => simp [assocFind]
  | cons p rest ih =>
    cases hp : p.1 == k
    · rw [assocFind, hp] at h
      simp only [Bool.false_eq_true, if_false] at h
      rw [List.cons_append, assocFind, hp]
      simp only [Bool.false_eq_true, if_false]
      exact ih h
    · rw [assocFind, hp] at h
      simp at h

theorem emit_constant_mem_ints (c : PyConst) (ctx : EmitContext) (i : Int) :
    i ∈ ((emit_constant c ctx).1).all_ints ↔
      i ∈ ctx.all_ints ∨ (c = .int i ∧ ¬(0 ≤ i ∧ i ≤ 1)) := by
  cases c with
  | none => simp [emit_constant]
  | bool b => simp [emit_constant]
  | str s =>
      unfold emit_constant
      by_cases h : s = ""
      · simp [h]
      · rcases hf : assocFind ctx.all_strings s with _ | k <;> simp [h, hf]
  | bytes b =>
      unfold emit_constant
      rcases hf : assocFind ctx.all_bytes b with _ | k <;> simp [hf]
  | int j =>
      unfold emit_constant
      by_cases h : 0 ≤ j ∧ j ≤ 1
      · simp only [if_pos h]
        constructor
        · exact fun hm => Or.inl hm
        · rintro (hm | ⟨heq, hni⟩)
          · exact hm
          · cases heq
            exact absurd h hni
      · simp only [if_neg h]
        by_cases hc : ctx.all_ints.contains j
        · have hj : j ∈ ctx.all_ints := by simpa using hc
          simp only [if_pos hc]
          constructor
          · exact fun hm => Or.inl hm
          · rintro (hm | ⟨heq, _⟩)
            · exact hm
            · cases heq
              exact hj
        · simp only [if_neg hc, List.mem_append, List.mem_singleton]
          constructor
          · rintro (hm | he)
            · exact Or.inl hm
            · exact Or.inr ⟨by rw [he], by rw [he]; exact h⟩
          · rintro (hm | ⟨heq, _⟩)
            · exact Or.inl hm
            · cases heq
              exact Or.inr rfl

theorem emit_constant_mem_str_keys (c : PyConst) (ctx : EmitContext) (s : String) :
    s ∈ ((emit_constant c ctx).1).all_strings.map Prod.fst ↔
      s ∈ ctx.all_strings.map Prod.fst ∨ (c = .str s ∧ s ≠ "") := by
  cases c with
  | none => simp [emit_constant]
  | bool b => simp [emit_constant]
  | int j =>
      unfold emit_constant
      by_cases h : 0 ≤ j ∧ j ≤ 1
      · simp [h]
      · by_cases hc : ctx.all_ints.contains j <;> simp [h, hc]
  | bytes b =>
      unfold emit_constant
      rcases hf : assocFind ctx.all_bytes b with _ | k <;> simp [hf]
  | str t =>
      unfold emit_constant
      by_cases h : t = ""
      · cases h
        constructor
        · exact fun hm => Or.inl hm
        · rintro (hm | ⟨heq, hne⟩)
          · exact hm
          · cases heq
            exact absurd rfl hne
      · rcases hf : assocFind ctx.all_strings t with _ | k
        · simp only [if_neg h, hf, List.map_append, List.map_cons, List.map_nil,
            List.mem_append, List.mem_singleton]
          constructor
          · rintro (hm | he)
            · exact Or.inl hm
            · exact Or.inr ⟨by rw [he], by rw [he]; exact h⟩
          · rintro (hm | ⟨heq, _⟩)
            · exact Or.inl hm
            · cases heq
              exact Or.inr rfl
        · have hmem : t ∈ ctx.all_strings.map Prod.fst := by
            by_contra hn
            rw [← assocFind_eq_none_iff] at hn
            rw [hn] at hf
            cases hf
          simp only [if_neg h, hf]
          constructor
          · exact fun hm => Or.inl hm
          · rintro (hm | ⟨heq, _⟩)
            · exact hm
            · cases heq
              exact hmem

theorem emit_constant_mem_bytes_keys (c : PyConst) (ctx : EmitContext) (b : List Nat) :
    b ∈ ((emit_constant c ctx).1).all_bytes.map Prod.fst ↔
      b ∈ ctx.all_bytes.map Prod.fst ∨ c = .bytes b := by
  cases c with
  | none => simp [emit_constant]
  | bool b' => simp [emit_constant]
  | int j =>
      unfold emit_constant
      by_cases h : 0 ≤ j ∧ j ≤ 1
      · simp [h]
      · by_cases hc : ctx.all_ints.contains j <;> simp [h, hc]
  | str t =>
      unfold emit_constant
      by_cases h : t = ""
      · simp [h]
      · rcases hf : assocFind ctx.all_strings t with _ | k <;> simp [h, hf]
  | bytes t =>
      unfold emit_constant
      rcases hf : assocFind ctx.all_bytes t with _ | k
      · simp only [hf, List.map_append, List.map_cons, List.map_nil,
          List.mem_append, List.mem_singleton]
        constructor
        · rintro (hm | he)
          · exact Or.inl hm
          · exact Or.inr (by rw [he])
        · rintro (hm | heq)
          · exact Or.inl hm
          · cases heq
            exact Or.inr rfl
      · have hmem : t ∈ ctx.all_bytes.map Prod.fst := by
          by_contra hn
          rw [← assocFind_eq_none_iff] at hn
          rw [hn] at hf
          cases hf
        simp only [hf]
        constructor
        · exact fun hm => Or.inl hm
        · rintro (hm | heq)
          · exact hm
          · cases heq
            exact hmem

theorem emit_constant_nodup_ints (c : PyConst) (ctx : EmitContext)
    (h : ctx.all_ints.Nodup) : ((emit_constant c ctx).1).all_ints.Nodup := by
  cases c with
  | none => exact h
  | bool b => exact h
  | str t =>
      unfold emit_constant
      by_cases hs : t = ""
      · simpa [hs] using h
      · rcases hf : assocFind ctx.all_strings t with _ | k <;> simpa [hs, hf] using h
  | bytes b =>
      unfold emit_constant
      rcases hf : assocFind ctx.all_bytes b with _ | k <;> simpa [hf] using h
  | int j =>
      unfold emit_constant
      by_cases hj : 0 ≤ j ∧ j ≤ 1
      · simpa [hj] using h
      · by_cases hc : j ∈ ctx.all_ints
        · simpa [hj, hc] using h
        · have hred : ((if ctx.all_ints.contains j = true then ctx.all_ints
              else ctx.all_ints ++ [j])) = ctx.all_ints ++ [j] := by
            simp [hc]
          simp only [if_neg hj, hred]
          rw [List.nodup_append]
          refine ⟨h, List.nodup_singleton _, ?_⟩
          intro a ha hb
          rw [List.mem_singleton] at hb
          subst hb
          exact hc ha

theorem emit_constant_nodup_str_keys (c : PyConst) (ctx : EmitContext)
    (h : (ctx.all_strings.map Prod.fst).Nodup) :
    (((emit_constant c ctx).1).all_strings.map Prod.fst).Nodup := by
  cases c with
  | none => exact h
  | bool b => exact h
  | int j =>
      unfold emit_constant
      by_cases hj : 0 ≤ j ∧ j ≤ 1
      · simpa [hj] using h
      · by_cases hc : j ∈ ctx.all_ints <;> simpa [hj, hc] using h
  | bytes b =>
      unfold emit_constant
      rcases hf : assocFind ctx.all_bytes b with _ | k <;> simpa [hf] using h
  | str t =>
      unfold emit_constant
      by_cases hs : t = ""
      · simpa [hs] using h
      · rcases hf : assocFind ctx.all_strings t with _ | k
        · have hnm : t ∉ ctx.all_strings.map Prod.fst := (assocFind_eq_none_iff _ _).mp hf
          simp only [if_neg hs, hf, List.map_append, List.map_cons, List.map_nil]
          rw [List.nodup_append]
          refine ⟨h, List.nodup_singleton _, ?_⟩
          intro a ha hb
          rw [List.mem_singleton] at hb
          subst hb
          exact hnm ha
        · simpa [hs, hf] using h

theorem emit_constant_nodup_bytes_keys (c : PyConst) (ctx : EmitContext)
    (h : (ctx.all_bytes.map Prod.fst).Nodup) :
    (((emit_constant c ctx).1).all_bytes.map Prod.fst).Nodup := by
  cases c with
  | none => exact h
  | bool b => exact h
  | int j =>
      unfold emit_constant
      by_cases hj : 0 ≤ j ∧ j ≤ 1
      · simpa [hj] using h
      · by_cases hc : j ∈ ctx.all_ints <;> simpa [hj, hc] using h
  | str t =>
      unfold emit_constant
      by_cases hs : t = ""
      · simpa [hs] using h
      · rcases hf : assocFind ctx.all_strings t with _ | k <;> simpa [hs, hf] using h
  | bytes b =>
      unfold emit_constant
      rcases hf : assocFind ctx.all_bytes b with _ | k
      · have hnm : b ∉ ctx.all_bytes.map Prod.fst := (assocFind_eq_none_iff _ _).mp hf
        simp only [hf, List.map_append, List.map_cons, List.map_nil]
        rw [List.nodup_append]
        refine ⟨h, List.nodup_singleton _, ?_⟩
        intro a ha hb
        rw [List.mem_singleton] at hb
        subst hb
        exact hnm ha
      · simpa [hf] using h

theorem emit_constant_preserves_str_find (c : PyConst) (ctx : EmitContext)
    (k : String) (n : Nat) (h : assocFind ctx.all_strings k = some n) :
    assocFind ((emit_constant c ctx).1).all_strings k = some n := by
  cases c with
  | none => exact h
  | bool b => exact h
  | int j =>
      unfold emit_constant
      by_cases hj : 0 ≤ j ∧ j ≤ 1
      · simpa [hj] using h
      · by_cases hc : j ∈ ctx.all_ints <;> simpa [hj, hc] using h
  | bytes b =>
      unfold emit_constant
      rcases hf : assocFind ctx.all_bytes b with _ | m <;> simpa [hf] using h
  | str t =>
      unfold emit_constant
      by_cases hs : t = ""
      · simpa [hs] using h
      · rcases hf : assocFind ctx.all_strings t with _ | m
        · simp only [if_neg hs, hf]
          exact assocFind_append_of_some _ _ _ _ h
        · simpa [hs, hf] using h

theorem emit_constant_preserves_bytes_find (c : PyConst) (ctx : EmitContext)
    (k : List Nat) (n : Nat) (h : assocFind ctx.all_bytes k = some n) :
    assocFind ((emit_constant c ctx).1).all_bytes k = some n := by
  cases c with
  | none => exact h
  | bool b => exact h
  | int j =>
      unfold emit_constant
      by_cases hj : 0 ≤ j ∧ j ≤ 1
      · simpa [hj] using h
      · by_cases hc : j ∈ ctx.all_ints <;> simpa [hj, hc] using h
  | str t =>
      unfold emit_constant
      by_cases hs : t = ""
      · simpa [hs] using h
      · rcases hf : assocFind ctx.all_strings t with _ | m <;> simpa [hs, hf] using h
  | bytes b =>
      unfold emit_constant
      rcases hf : assocFind ctx.all_bytes b with _ | m
      · simp only [hf]
        exact assocFind_append_of_some _ _ _ _ h
      · simpa [hf] using h

theorem processConsts_preserves_str_find (cs : List PyConst) (ctx : EmitContext)
    (k : String) (n : Nat) (h : assocFind ctx.all_strings k = some n) :
    assocFind (processConsts cs ctx).all_strings k = some n := by
  induction cs generalizing ctx with
  | nil => exact h
  | cons c cs ih => exact ih _ (emit_constant_preserves_str_find c ctx k n h)

theorem processConsts_preserves_bytes_find (cs : List PyConst) (ctx : EmitContext)
    (k : List Nat) (n : Nat) (h : assocFind ctx.all_bytes k = some n) :
    assocFind (processConsts cs ctx).all_bytes k = some n := by
  induction cs generalizing ctx with
  | nil => exact h
  | cons c cs ih => exact ih _ (emit_constant_preserves_bytes_find c ctx k n h)

/-- Lowering a nonempty string literal establishes a pool binding and
returns the singleton identifier for that binding. -/
theorem emit_constant_str_establishes (s : String) (hs : s ≠ "") (ctx : EmitContext) :
    ∃ k, assocFind ((emit_constant (.str s) ctx).1).all_strings s = some k ∧
      (emit_constant (.str s) ctx).2 = .ident ("str_singleton_" ++ toString k) := by
  unfold emit_constant
  rcases hf : assocFind ctx.all_strings s with _ | k
  · refine ⟨ctx.all_strings.length, ?_, ?_⟩
    · simp only [if_neg hs, hf]
      exact assocFind_append_self _ _ _ hf
    · simp [hs, hf]
  · exact ⟨k, by simp [hs, hf], by simp [hs, hf]⟩

/-- Lowering a bytes literal establishes a pool binding and returns the
singleton identifier for that binding. -/
theorem emit_constant_bytes_establishes (b : List Nat) (ctx : EmitContext) :
    ∃ k, assocFind ((emit_constant (.bytes b) ctx).1).all_bytes b = some k ∧
      (emit_constant (.bytes b) ctx).2 = .ident ("bytes_singleton_" ++ toString k) := by
  unfold emit_constant
  rcases hf : assocFind ctx.all_bytes b with _ | k
  · refine ⟨ctx.all_bytes.length, ?_, ?_⟩
    · simp only [hf]
      exact assocFind_append_self _ _ _ hf
    · simp [hf]
  · exact ⟨k, by simp [hf], by simp [hf]⟩

/-- When a nonempty string already has a pool binding, lowering it returns
the identifier of that binding and leaves the pool unchanged. -/
theorem emit_constant_str_of_find (s : String) (hs : s ≠ "") (ctx : EmitContext) (k : Nat)
    (h : assocFind ctx.all_strings s = some k) :
    emit_constant (.str s) ctx = (ctx, .ident ("str_singleton_" ++ toString k)) := by
  unfold emit_constant
  simp [hs, h]

/-- When a byte sequence already has a pool binding, lowering it returns the
identifier of that binding and leaves the pool unchanged. -/
theorem emit_constant_bytes_of_find (b : List Nat) (ctx : EmitContext) (k : Nat)
    (h : assocFind ctx.all_bytes b = some k) :
    emit_constant (.bytes b) ctx = (ctx, .ident ("bytes_singleton_" ++ toString k)) := by
  unfold emit_constant
  simp [h]

/-- Lowering the same literal again, after any amount of further lowering,
produces the same expression: all occurrences share one pool entry. -/
theorem emit_constant_stable (c : PyConst) (ctx : EmitContext) (cs : List PyConst) :
    (emit_constant c (processConsts cs (emit_constant c ctx).1)).2
      = (emit_constant c ctx).2 := by
  cases c with
  | none => rfl
  | bool b => rfl
  | int j =>
      by_cases hj : 0 ≤ j ∧ j ≤ 1 <;> simp [emit_constant, hj]
  | str t =>
      by_cases hs : t = ""
      · simp [emit_constant, hs]
      · obtain ⟨k, hfind, hret⟩ := emit_constant_str_establishes t hs ctx
        have hkeep := processConsts_preserves_str_find cs _ t k hfind
        rw [hret, emit_constant_str_of_find t hs _ k hkeep]
  | bytes b =>
      obtain ⟨k, hfind, hret⟩ := emit_constant_bytes_establishes b ctx
      have hkeep := processConsts_preserves_bytes_find cs _ b k hfind
      rw [hret, emit_constant_bytes_of_find b _ k hkeep]

theorem processConsts_mem_ints (cs : List PyConst) (ctx : EmitContext) (i : Int) :
    i ∈ (processConsts cs ctx).all_ints ↔
      i ∈ ctx.all_ints ∨ (PyConst.int i ∈ cs ∧ ¬(0 ≤ i ∧ i ≤ 1)) := by
  induction cs generalizing ctx with
  | nil => simp [processConsts]
  | cons c cs ih =>
    show i ∈ (processConsts cs (emit_constant c ctx).1).all_ints ↔ _
    rw [ih, emit_constant_mem_ints]
    constructor
    · rintro ((hm | ⟨hc, hni⟩) | ⟨hmem, hni⟩)
      · exact Or.inl hm
      · exact Or.inr ⟨by rw [hc]; exact List.mem_cons_self _ _, hni⟩
      · exact Or.inr ⟨List.mem_cons_of_mem c hmem, hni⟩
    · rintro (hm | ⟨hmem, hni⟩)
      · exact Or.inl (Or.inl hm)
      · rcases List.mem_cons.mp hmem with he | hm2
        · exact Or.inl (Or.inr ⟨he.symm, hni⟩)
        · exact Or.inr ⟨hm2, hni⟩

theorem processConsts_mem_str_keys (cs : List PyConst) (ctx : EmitContext) (s : String) :
    s ∈ (processConsts cs ctx).all_strings.map Prod.fst ↔
      s ∈ ctx.all_strings.map Prod.fst ∨ (PyConst.str s ∈ cs ∧ s ≠ "") := by
  induction cs generalizing ctx with
  | nil => simp [processConsts]
  | cons c cs ih =>
    show s ∈ (processConsts cs (emit_constant c ctx).1).all_strings.map Prod.fst ↔ _
    rw [ih, emit_constant_mem_str_keys]
    constructor
    · rintro ((hm | ⟨hc, hne⟩) | ⟨hmem, hne⟩)
      · exact Or.inl hm
      · exact Or.inr ⟨by rw [hc]; exact List.mem_cons_self _ _, hne⟩
      · exact Or.inr ⟨List.mem_cons_of_mem c hmem, hne⟩
    · rintro (hm | ⟨hmem, hne⟩)
      · exact Or.inl (Or.inl hm)
      · rcases List.mem_cons.mp hmem with he | hm2
        · exact Or.inl (Or.inr ⟨he.symm, hne⟩)
        · exact Or.inr ⟨hm2, hne⟩

theorem processConsts_mem_bytes_keys (cs : List PyConst) (ctx : EmitContext) (b : List Nat) :
    b ∈ (processConsts cs ctx).all_bytes.map Prod.fst ↔
      b ∈ ctx.all_bytes.map Prod.fst ∨ PyConst.bytes b ∈ cs := by
  induction cs generalizing ctx with
  | nil => simp [processConsts]
  | cons c cs ih =>
    show b ∈ (processConsts cs (emit_constant c ctx).1).all_bytes.map Prod.fst ↔ _
    rw [ih, emit_constant_mem_bytes_keys]
    constructor
    · rintro ((hm | hc) | hmem)
      · exact Or.inl hm
      · exact Or.inr (by rw [hc]; exact List.mem_cons_self _ _)
      · exact Or.inr (List.mem_cons_of_mem c hmem)
    · rintro (hm | hmem)
      · exact Or.inl (Or.inl hm)
      · rcases List.mem_cons.mp hmem with he | hm2
        · exact Or.inl (Or.inr he.symm)
        · exact Or.inr hm2

theorem processConsts_nodup (cs : List PyConst) (ctx : EmitContext)
    (h1 : ctx.all_ints.Nodup) (h2 : (ctx.all_strings.map Prod.fst).Nodup)
    (h3 : (ctx.all_bytes.map Prod.fst).Nodup) :
    (processConsts cs ctx).all_ints.Nodup ∧
    ((processConsts cs ctx).all_strings.map Prod.fst).Nodup ∧
    ((processConsts cs ctx).all_bytes.map Prod.fst).Nodup := by
  induction cs generalizing ctx with
  | nil => exact ⟨h1, h2, h3⟩
  | cons c cs ih =>
    exact ih _ (emit_constant_nodup_ints c ctx h1)
      (emit_constant_nodup_str_keys c ctx h2)
      (emit_constant_nodup_bytes_keys c ctx h3)

/-- C8: over a whole translation unit starting from the empty pool —
identical string and bytes literals share a single pool entry (the key sets
are duplicate free, and re-lowering a literal at any later point returns
the same expression); an integer other than 0 and 1 appears in the pool
exactly when it was lowered; 0, 1 and the empty string are never pooled and
lower to the runtime singletons PyInt.singleton_0, PyInt.singleton_1 and
PyString.empty_singleton. -/
theorem constant_pool_dedup_and_singletons :
    (∀ cs i, i ∈ (processConsts cs emptyEmitContext).all_ints ↔
        (PyConst.int i ∈ cs ∧ ¬(0 ≤ i ∧ i ≤ 1))) ∧
    (∀ cs, (processConsts cs emptyEmitContext).all_ints.Nodup) ∧
    (∀ cs s, s ∈ (processConsts cs emptyEmitContext).all_strings.map Prod.fst ↔
        (PyConst.str s ∈ cs ∧ s ≠ "")) ∧
    (∀ cs, ((processConsts cs emptyEmitContext).all_strings.map Prod.fst).Nodup) ∧
    (∀ cs b, b ∈ (processConsts cs emptyEmitContext).all_bytes.map Prod.fst ↔
        PyConst.bytes b ∈ cs) ∧
    (∀ cs, ((processConsts cs emptyEmitContext).all_bytes.map Prod.fst).Nodup) ∧
    (∀ cs, (0 : Int) ∉ (processConsts cs emptyEmitContext).all_ints ∧
        (1 : Int) ∉ (processConsts cs emptyEmitContext).all_ints ∧
        "" ∉ (processConsts cs emptyEmitContext).all_strings.map Prod.fst) ∧
    (∀ c ctx cs, (emit_constant c (processConsts cs (emit_constant c ctx).1)).2
        = (emit_constant c ctx).2) ∧
    (∀ ctx, emit_constant (.int 0) ctx = (ctx, .field (.ident "PyInt") "singleton_0")) ∧
    (∀ ctx, emit_constant (.int 1) ctx = (ctx, .field (.ident "PyInt") "singleton_1")) ∧
    (∀ ctx, emit_constant (.str "") ctx = (ctx, .field (.ident "PyString") "empty_singleton")) := by
  have hm := fun cs i => processConsts_mem_ints cs emptyEmitContext i
  have hs := fun cs s => processConsts_mem_str_keys cs emptyEmitContext s
  have hb := fun cs b => processConsts_mem_bytes_keys cs emptyEmitContext b
  have hnd := fun cs => processConsts_nodup cs emptyEmitContext
    List.nodup_nil (by simp [emptyEmitContext]) (by simp [emptyEmitContext])
  refine ⟨?_, fun cs => (hnd cs).1, ?_, fun cs => (hnd cs).2.1, ?_, fun cs => (hnd cs).2.2, ?_,
    emit_constant_stable, ?_, ?_, ?_⟩
  · intro cs i
    rw [hm cs i]
    simp [emptyEmitContext]
  · intro cs s
    rw [hs cs s]
    simp [emptyEmitContext]
  · intro cs b
    rw [hb cs b]
    simp [emptyEmitContext]
  · intro cs
    refine ⟨?_, ?_, ?_⟩
    · rw [hm cs 0]
      simp [emptyEmitContext]
    · rw [hm cs 1]
      simp [emptyEmitContext]
    · rw [hs cs ""]
      simp [emptyEmitContext]
  · exact fun ctx => rfl
  · exact fun ctx => rfl
  · exact fun ctx => rfl

/-- C8 witness: lowering 5, "ab", 5, "ab" from the empty pool yields one
entry for 5 and one for "ab", no entry for 0, 1 or the empty string, and
repeated occurrences share them. -/
theorem constant_pool_dedup_witness :
    ((5 : Int) ∈ (processConsts [PyConst.int 5, PyConst.str "ab", PyConst.int 5,
        PyConst.str "ab"] emptyEmitContext).all_ints) ∧
    ((processConsts [PyConst.int 5, PyConst.str "ab", PyConst.int 5,
        PyConst.str "ab"] emptyEmitContext).all_ints.Nodup) ∧
    ((0 : Int) ∉ (processConsts [PyConst.int 5, PyConst.str "ab", PyConst.int 5,
        PyConst.str "ab"] emptyEmitContext).all_ints) ∧
    (emit_constant (PyConst.str "ab")
        (processConsts [PyConst.int 5]
          (emit_constant (PyConst.str "ab") emptyEmitContext).1)).2
      = (emit_constant (PyConst.str "ab") emptyEmitContext).2 := by
  refine ⟨?_, constant_pool_dedup_and_singletons.2.1 _, ?_, ?_⟩
  · exact (constant_pool_dedup_and_singletons.1 _ 5).mpr ⟨by decide, by decide⟩
  · exact (constant_pool_dedup_and_singletons.2.2.2.2.2.2.1 _).1
  · exact constant_pool_dedup_and_singletons.2.2.2.2.2.2.2.1 (PyConst.str "ab")
      emptyEmitContext [PyConst.int 5]

/-! C9.  Deterministic emission order. -/

theorem mem_insertSorted {a : Type} (le : a → a → Bool) (x y : a) (l : List a) :
    y ∈ insertSorted le x l ↔ y = x ∨ y ∈ l := by
  induction l with
  | nil => simp [insertSorted]
  | cons z zs ih =>
    unfold insertSorted
    by_cases h : le x z = true
    · simp [h]
    · simp only [if_neg h, List.mem_cons, ih]
      tauto

theorem insertSorted_pairwise {a : Type} (le : a → a → Bool)
    (htot : ∀ p q, le p q = true ∨ le q p = true)
    (htrans : ∀ p q r, le p q = true → le q r = true → le p r = true)
    (x : a) (l : List a) (h : List.Pairwise (fun p q => le p q = true) l) :
    List.Pairwise (fun p q => le p q = true) (insertSorted le x l) := by
  induction l with
  | nil => simp [insertSorted]
  | cons z zs ih =>
    unfold insertSorted
    by_cases hxz : le x z = true
    · simp only [if_pos hxz]
      refine List.Pairwise.cons ?_ h
      intro b hb
      rcases List.mem_cons.mp hb with he | hm
      · rw [he]
        exact hxz
      · exact htrans x z b hxz (List.rel_of_pairwise_cons h hm)
    · simp only [if_neg hxz]
      refine List.Pairwise.cons ?_ (ih (List.pairwise_cons.mp h).2)
      · intro b hb
        rcases (mem_insertSorted le x b zs).mp hb with he | hm
        · rw [he]
          rcases htot x z with h1 | h1
          · exact absurd h1 hxz
          · exact h1
        · exact List.rel_of_pairwise_cons h hm

theorem pySorted_pairwise {a : Type} (le : a → a → Bool)
    (htot : ∀ p q, le p q = true ∨ le q p = true)
    (htrans : ∀ p q r, le p q = true → le q r = true → le p r = true)
    (l : List a) :
    List.Pairwise (fun p q => le p q = true) (pySorted le l) := by
  induction l with
  | nil => exact List.Pairwise.nil
  | cons x xs ih => exact insertSorted_pairwise le htot htrans x (pySorted le xs) ih

theorem bytesLe_total (x y : List Nat) : bytesLe x y = true ∨ bytesLe y x = true := by
  induction x generalizing y with
  | nil => exact Or.inl rfl
  | cons a as ih =>
    cases y with
    | nil => exact Or.inr rfl
    | cons b bs =>
      rcases Nat.lt_trichotomy a b with h | h | h
      · exact Or.inl (by simp [bytesLe, h])
      · subst h
        rcases ih bs with h2 | h2
        · exact Or.inl (by simp [bytesLe, h2])
        · exact Or.inr (by simp [bytesLe, h2])
      · exact Or.inr (by simp [bytesLe, h])

theorem bytesLe_trans (x y z : List Nat) (h1 : bytesLe x y = true) (h2 : bytesLe y z = true) :
    bytesLe x z = true := by
  induction x generalizing y z with
  | nil => rfl
  | cons a as ih =>
    cases y with
    | nil => simp [bytesLe] at h1
    | cons b bs =>
      cases z with
      | nil => simp [bytesLe] at h2
      | cons c cs =>
        simp only [bytesLe, Bool.or_eq_true, Bool.and_eq_true, decide_eq_true_eq,
          beq_iff_eq] at h1 h2 ⊢
        rcases h1 with h1 | ⟨hab, h1⟩
        · rcases h2 with h2 | ⟨hbc, h2⟩
          · exact Or.inl (Nat.lt_trans h1 h2)
          · exact Or.inl (hbc ▸ h1)
        · rcases h2 with h2 | ⟨hbc, h2⟩
          · exact Or.inl (hab ▸ h2)
          · exact Or.inr ⟨hab.trans hbc, ih bs cs h1 h2⟩

/-- The integer values declared by the emission phase, in emission order. -/
def intEntries (l : List PoolEntry) : List Int :=
  l.filterMap (fun e => match e with | .intE i => some i | _ => none)

/-- The string literals declared by the emission phase, in emission order. -/
def strEntries (l : List PoolEntry) : List String :=
  l.filterMap (fun e => match e with | .strE s _ => some s | _ => none)

/-- The bytes literals declared by the emission phase, in emission order. -/
def bytesEntries (l : List PoolEntry) : List (List Nat) :=
  l.filterMap (fun e => match e with | .bytesE b _ => some b | _ => none)

/-- Section tag of a pool declaration (integers, then strings, then bytes). -/
def entryKind : PoolEntry → Nat
  | .intE _ => 0
  | .strE _ _ => 1
  | .bytesE _ _ => 2

theorem pairwise_of_rel_const {a : Type} (R : a → a → Prop) (h : ∀ p q, R p q)
    (l : List a) : List.Pairwise R l := by
  induction l with
  | nil => exact List.Pairwise.nil
  | cons x xs ih => exact List.Pairwise.cons (fun q _ => h x q) ih

theorem filterMap_none_eq {a b : Type} (l : List a) :
    (l.filterMap fun _ => (none : Option b)) = [] := by
  induction l with
  | nil => rfl
  | cons x xs ih => simp [List.filterMap_cons, ih]

theorem filterMap_some_comp {a b : Type} (f : a → b) (l : List a) :
    (l.filterMap fun x => some (f x)) = l.map f := by
  induction l with
  | nil => rfl
  | cons x xs ih => simp [List.filterMap_cons, ih]

theorem intEntries_emit (ctx : EmitContext) :
    intEntries (emit_java_entries ctx) = pySorted (fun a b => a ≤ b) ctx.all_ints := by
  simp [intEntries, emit_java_entries, List.filterMap_append, List.filterMap_map,
    Function.comp_def, filterMap_none_eq, filterMap_some_comp]

theorem strEntries_emit (ctx : EmitContext) :
    strEntries (emit_java_entries ctx)
      = (pySorted (fun a b => a.1 ≤ b.1) ctx.all_strings).map Prod.fst := by
  simp [strEntries, emit_java_entries, List.filterMap_append, List.filterMap_map,
    Function.comp_def, filterMap_none_eq, filterMap_some_comp]

theorem bytesEntries_emit (ctx : EmitContext) :
    bytesEntries (emit_java_entries ctx)
      = (pySorted (fun a b => bytesLe a.1 b.1) ctx.all_bytes).map Prod.fst := by
  simp [bytesEntries, emit_java_entries, List.filterMap_append, List.filterMap_map,
    Function.comp_def, filterMap_none_eq, filterMap_some_comp]

/-- C9: the mechanisms that make translation deterministic and its output
stable — pool declarations are emitted with the integers sorted numerically,
the strings and the bytes sorted by literal value, and the three sections in
fixed order; user-function classes are emitted sorted by function name;
module globals are emitted sorted by name; and visit_FunctionDef restores
the temporary counter on exit and numbers the body temporaries from 0, so
the recorded function body does not depend on the incoming counter.
(Translation itself is a pure function of the input AST in this embedding,
so running it twice on the same input trivially yields identical output.) -/
theorem write_java_deterministic_order :
    (∀ ctx, List.Pairwise (· ≤ ·) (intEntries (emit_java_entries ctx))) ∧
    (∀ ctx, List.Pairwise (· ≤ ·) (strEntries (emit_java_entries ctx))) ∧
    (∀ ctx, List.Pairwise (fun p q => bytesLe p q = true) (bytesEntries (emit_java_entries ctx))) ∧
    (∀ ctx, List.Pairwise (· ≤ ·) ((emit_java_entries ctx).map entryKind)) ∧
    (∀ st, List.Pairwise (· ≤ ·) ((write_java_functions st).map Prod.fst)) ∧
    (∀ st, List.Pairwise (· ≤ ·) (write_java_globals st)) ∧
    (∀ fname args body st,
        (visitStmt (.funcDef fname args body) st).n_temps = st.n_temps) ∧
    (∀ fname args body st n,
        (visitStmt (.funcDef fname args body) { st with n_temps := n }).functions
          = (visitStmt (.funcDef fname args body) st).functions) := by
  refine ⟨?_, ?_, ?_, ?_, ?_, ?_, ?_, ?_⟩
  · intro ctx
    rw [intEntries_emit]
    have := pySorted_pairwise (fun a b : Int => decide (a ≤ b))
      (fun p q => by rcases le_total p q with h | h <;> simp [h])
      (fun p q r h1 h2 => by
        simp only [decide_eq_true_eq] at h1 h2 ⊢
        exact le_trans h1 h2)
      ctx.all_ints
    exact this.imp (fun h => of_decide_eq_true h)
  · intro ctx
    rw [strEntries_emit]
    rw [List.pairwise_map]
    have := pySorted_pairwise (fun a b : String × Nat => decide (a.1 ≤ b.1))
      (fun p q => by rcases le_total p.1 q.1 with h | h <;> simp [h])
      (fun p q r h1 h2 => by
        simp only [decide_eq_true_eq] at h1 h2 ⊢
        exact le_trans h1 h2)
      ctx.all_strings
    exact this.imp (fun h => of_decide_eq_true h)
  · intro ctx
    rw [bytesEntries_emit]
    rw [List.pairwise_map]
    exact pySorted_pairwise (fun a b : List Nat × Nat => bytesLe a.1 b.1)
      (fun p q => bytesLe_total p.1 q.1)
      (fun p q r h1 h2 => bytesLe_trans p.1 q.1 r.1 h1 h2)
      ctx.all_bytes
  · intro ctx
    unfold emit_java_entries
    rw [List.map_append, List.map_append, List.pairwise_append, List.pairwise_append]
    refine ⟨⟨?_, ?_, ?_⟩, ?_, ?_⟩
    · rw [List.map_map, List.pairwise_map]
      exact pairwise_of_rel_const _ (fun p q => le_refl 0) _
    · rw [List.map_map, List.pairwise_map]
      exact pairwise_of_rel_const _ (fun p q => le_refl 1) _
    · intro a ha b hb
      rw [List.map_map, List.mem_map] at ha hb
      obtain ⟨_, _, rfl⟩ := ha
      obtain ⟨_, _, rfl⟩ := hb
      exact Nat.zero_le 1
    · rw [List.map_map, List.pairwise_map]
      exact pairwise_of_rel_const _ (fun p q => le_refl 2) _
    · intro a ha b hb
      rw [List.mem_append] at ha
      rw [List.map_map, List.mem_map] at hb
      obtain ⟨_, _, rfl⟩ := hb
      rcases ha with ha | ha <;> rw [List.map_map, List.mem_map] at ha <;>
        obtain ⟨_, _, rfl⟩ := ha
      · exact Nat.zero_le 2
      · exact Nat.le_succ 1
  · intro st
    unfold write_java_functions
    rw [List.pairwise_map]
    have := pySorted_pairwise (fun a b : String × List JavaStatement => decide (a.1 ≤ b.1))
      (fun p q => by rcases le_total p.1 q.1 with h | h <;> simp [h])
      (fun p q r h1 h2 => by
        simp only [decide_eq_true_eq] at h1 h2 ⊢
        exact le_trans h1 h2)
      st.functions
    exact this.imp (fun h => of_decide_eq_true h)
  · intro st
    unfold write_java_globals
    have := pySorted_pairwise (fun a b : String => decide (a ≤ b))
      (fun p q => by rcases le_total p q with h | h <;> simp [h])
      (fun p q r h1 h2 => by
        simp only [decide_eq_true_eq] at h1 h2 ⊢
        exact le_trans h1 h2)
      st.global_names
    exact this.imp (fun h => of_decide_eq_true h)
  · intro fname args body st
    by_cases h : st.in_function <;> simp [visitStmt, h]
  · intro fname args body st n
    by_cases h : st.in_function <;> simp [visitStmt, h]

/-- C9 witness: the ordering facts instantiated at a concrete pool and a
concrete function definition. -/
theorem write_java_deterministic_order_witness :
    List.Pairwise (· ≤ ·) (intEntries (emit_java_entries ⟨[3, 1, 2], [], []⟩)) ∧
    (visitStmt (.funcDef "g" [] []) initState).n_temps = initState.n_temps :=
  ⟨write_java_deterministic_order.1 ⟨[3, 1, 2], [], []⟩,
   write_java_deterministic_order.2.2.2.2.2.2.1 "g" [] [] initState⟩

/-! C4.  Identifier resolution. -/

/-- Number of assignment statements whose left side is the given raw
identifier. -/
def countAssignsTo (n : String) (l : List JavaStatement) : Nat :=
  l.countP (fun s => match s with
    | .assignStmt (.ident m) _ => m == n
    | _ => false)

/-- C4 counterexample: in the module `x = 1` followed by
`def f(): x = 2`, the name x is assigned inside the body of f — the
translator itself records it as an assigned local (an uninitialized
`PyObject pylocal_x;` declaration is emitted) — yet the assignment in the
emitted body targets the module slot `pyglobal_x`, not `pylocal_x`,
because ident_expr consults the module-scope name set rather than the
function-local assigned-name set.  This refutes the claim sentence that
inside a function a name assigned anywhere in the function body resolves
to `pylocal_`. -/
theorem ident_resolution_assigned_local_counterexample :
    countAssignsTo "pyglobal_x"
        (lookupFunction
          (visit_Module
            [.assign "x" (.constant (.int 1)),
             .funcDef "f" [] [.assign "x" (.constant (.int 2))]] initState) "f") = 1 ∧
    countAssignsTo "pylocal_x"
        (lookupFunction
          (visit_Module
            [.assign "x" (.constant (.int 1)),
             .funcDef "f" [] [.assign "x" (.constant (.int 2))]] initState) "f") = 0 ∧
    countUninitDeclsNamed "pylocal_x"
        (lookupFunction
          (visit_Module
            [.assign "x" (.constant (.int 1)),
             .funcDef "f" [] [.assign "x" (.constant (.int 2))]] initState) "f") = 1 := by
  exact ⟨rfl, rfl, rfl⟩

/-- C4 (amended): ident_expr resolves an identifier by the priority the
claim's first sentence states — `__pythonj_null__` to the raw identifier
`null` when intrinsics are enabled; then a built-in name to
`Runtime.pyglobal_<name>`; then, inside a function, a name neither in the
module-scope name set nor declared explicitly global to `pylocal_<name>`;
otherwise `pyglobal_<name>`.  (In particular a name assigned in the
function body resolves to `pylocal_` only when it is also absent from the
module-scope name set, not unconditionally as the claim's second sentence
says.) -/
theorem ident_expr_priority :
    (∀ (st : VState) (name : String), st.allow_intrinsics = true →
        name = "__pythonj_null__" → ident_expr st name = .ident "null") ∧
    (∀ (st : VState) (name : String),
        ¬(st.allow_intrinsics = true ∧ name = "__pythonj_null__") →
        name ∈ BUILTINS →
        ident_expr st name = .field (.ident "Runtime") ("pyglobal_" ++ name)) ∧
    (∀ (st : VState) (name : String),
        ¬(st.allow_intrinsics = true ∧ name = "__pythonj_null__") →
        name ∉ BUILTINS →
        st.in_function = true →
        name ∉ st.global_names →
        name ∉ st.explicit_globals →
        ident_expr st name = .ident ("pylocal_" ++ name)) ∧
    (∀ (st : VState) (name : String),
        ¬(st.allow_intrinsics = true ∧ name = "__pythonj_null__") →
        name ∉ BUILTINS →
        (st.in_function = false ∨ name ∈ st.global_names ∨ name ∈ st.explicit_globals) →
        ident_expr st name = .ident ("pyglobal_" ++ name)) := by
  have hInt : ∀ (st : VState) (name : String),
      ¬(st.allow_intrinsics = true ∧ name = "__pythonj_null__") →
      (st.allow_intrinsics && name == "__pythonj_null__") = false := by
    intro st name hni
    cases ha : st.allow_intrinsics with
    | false => simp
    | true =>
        have hne : ¬ name = "__pythonj_null__" := fun he => hni ⟨ha, he⟩
        simp [hne]
  refine ⟨?_, ?_, ?_, ?_⟩
  · intro st name hi hn
    subst hn
    simp [ident_expr, hi]
  · intro st name hni hb
    unfold ident_expr
    rw [hInt st name hni]
    simp [hb]
  · intro st name hni hb hf hg he
    unfold ident_expr
    rw [hInt st name hni]
    simp [hb, hf, hg, he]
  · intro st name hni hb hdis
    unfold ident_expr
    rw [hInt st name hni]
    rcases hdis with h | h | h
    · simp [hb, h]
    · simp [hb, h]
    · simp [hb, h]

/-- A state inside a function body with no names recorded (for the C4
witness). -/
def c4_state_local : VState := { initState with in_function := true }

/-- A state inside a function body where y is declared explicitly global
(for the C4 witness). -/
def c4_state_global : VState := { initState with in_function := true, explicit_globals := ["y"] }

/-- C4 witness: the priority instantiated at concrete states — a built-in, a
plain local inside a function, an explicitly global name, and a module-level
reference. -/
theorem ident_expr_priority_witness :
    ident_expr initState "len" = .field (.ident "Runtime") "pyglobal_len" ∧
    ident_expr c4_state_local "y" = .ident "pylocal_y" ∧
    ident_expr c4_state_global "y" = .ident "pyglobal_y" ∧
    ident_expr initState "y" = .ident "pyglobal_y" := by
  refine ⟨?_, ?_, ?_, ?_⟩
  · exact ident_expr_priority.2.1 initState "len" (by simp [initState]) (by decide)
  · exact ident_expr_priority.2.2.1 c4_state_local "y"
      (by simp [c4_state_local, initState]) (by decide) rfl
      (by simp [c4_state_local, initState]) (by simp [c4_state_local, initState])
  · exact ident_expr_priority.2.2.2 c4_state_global "y"
      (by simp [c4_state_global, initState]) (by decide)
      (Or.inr (Or.inr (by simp [c4_state_global])))
  · exact ident_expr_priority.2.2.2 initState "y" (by simp [initState]) (by decide)
      (Or.inl rfl)

/-! C5 and C6.  Chained comparisons and boolean operators. -/

mutual

/-- Structural equality test on Java expressions (used only to count
occurrences of a subexpression in emitted code). -/
def beqE : JavaExpr → JavaExpr → Bool
  | .intLit v1 s1, .intLit v2 s2 => v1 == v2 && s1 == s2
  | .strLit s1, .strLit s2 => s1 == s2
  | .ident n1, .ident n2 => n1 == n2
  | .field o1 f1, .field o2 f2 => beqE o1 o2 && f1 == f2
  | .arrayAccess o1 i1, .arrayAccess o2 i2 => beqE o1 o2 && beqE i1 i2
  | .unaryOp p1 x1, .unaryOp p2 x2 => p1 == p2 && beqE x1 x2
  | .binaryOp p1 l1 r1, .binaryOp p2 l2 r2 => p1 == p2 && beqE l1 l2 && beqE r1 r2
  | .condOp a1 b1 c1, .condOp a2 b2 c2 => beqE a1 a2 && beqE b1 b2 && beqE c1 c2
  | .createObject t1 a1, .createObject t2 a2 => t1 == t2 && beqEList a1 a2
  | .createArray t1 a1, .createArray t2 a2 => t1 == t2 && beqEList a1 a2
  | .methodCall o1 m1 a1, .methodCall o2 m2 a2 => beqE o1 o2 && m1 == m2 && beqEList a1 a2
  | .assignExpr l1 r1, .assignExpr l2 r2 => beqE l1 l2 && beqE r1 r2
  | _, _ => false

def beqEList : List JavaExpr → List JavaExpr → Bool
  | [], [] => true
  | x :: xs, y :: ys => beqE x y && beqEList xs ys
  | _, _ => false

end

/-- One if the expression equals the needle, else zero. -/
def hitCount (needle e : JavaExpr) : Nat := if beqE e needle then 1 else 0

mutual

/-- Number of occurrences of a subexpression inside an expression tree
(counting the expression itself). -/
def countSubexpr (needle : JavaExpr) : JavaExpr → Nat
  | .intLit v s => hitCount needle (.intLit v s)
  | .strLit s => hitCount needle (.strLit s)
  | .ident n => hitCount needle (.ident n)
  | .field o f => hitCount needle (.field o f) + countSubexpr needle o
  | .arrayAccess o i => hitCount needle (.arrayAccess o i)
      + countSubexpr needle o + countSubexpr needle i
  | .unaryOp p x => hitCount needle (.unaryOp p x) + countSubexpr needle x
  | .binaryOp p l r => hitCount needle (.binaryOp p l r)
      + countSubexpr needle l + countSubexpr needle r
  | .condOp a b c => hitCount needle (.condOp a b c)
      + countSubexpr needle a + countSubexpr needle b + countSubexpr needle c
  | .createObject t args => hitCount needle (.createObject t args) + countSubexprList needle args
  | .createArray t elts => hitCount needle (.createArray t elts) + countSubexprList needle elts
  | .methodCall o m args => hitCount needle (.methodCall o m args)
      + countSubexpr needle o + countSubexprList needle args
  | .assignExpr l r => hitCount needle (.assignExpr l r)
      + countSubexpr needle l + countSubexpr needle r

def countSubexprList (needle : JavaExpr) : List JavaExpr → Nat
  | [] => 0
  | e :: es => countSubexpr needle e + countSubexprList needle es

end

/-- An atomic operand: a bare name or a call of a name with no arguments
(enough for the shapes `a`, `f()` the claims use; lowering such an operand
neither allocates temporaries nor appends statements). -/
def isAtom : PyExpr → Bool
  | .name _ => true
  | .call (.name _) [] => true
  | _ => false

/-- The lowering of an atomic operand at a given state. -/
def atomVal (st : VState) : PyExpr → JavaExpr
  | .name s => ident_expr st s
  | .call (.name f) [] =>
      .methodCall (ident_expr st f) "call" [.createArray "PyObject" [], .ident "null"]
  | _ => .ident "__not_atomic__"

/-- The temporary declarations appended for counters t, t+1, …, t+k-1. -/
def tempDecls (t k : Nat) : List JavaStatement :=
  (List.range k).map (fun j => .variableDecl "PyObject" (tempName (t + j)) none)

/-- The pairwise tests of a chained comparison, as the spec words them:
every intermediate comparand is stored into a fresh temporary via
assignment-as-expression inside its first pairwise test and referenced as
that temporary in the next test. -/
def compareSpecTerms (st : VState) (t : Nat) (lhs : JavaExpr) :
    List (CmpOp × PyExpr) → List JavaExpr
  | [] => []
  | [(op, c)] => [compare_term op lhs (atomVal st c)]
  | (op, c) :: rest =>
      compare_term op lhs (.assignExpr (.ident (tempName t)) (atomVal st c))
        :: compareSpecTerms st (t + 1) (.ident (tempName t)) rest

/-- The right-associated short-circuit chain of a boolean operator, as the
spec words it: `(t = a).boolValue() ? rest : t` for and, mirrored for or,
one fresh temporary per binary step, the last operand staying boxed. -/
def boolChainSpec (op : BoolKind) (st : VState) (t : Nat) : List PyExpr → JavaExpr
  | [] => .ident "__assert_nonempty__"
  | [v] => atomVal st v
  | v :: vs =>
      match op with
      | .and => .condOp (.methodCall (.assignExpr (.ident (tempName t)) (atomVal st v))
          "boolValue" []) (boolChainSpec op st (t + 1) vs) (.ident (tempName t))
      | .or => .condOp (.methodCall (.assignExpr (.ident (tempName t)) (atomVal st v))
          "boolValue" []) (.ident (tempName t)) (boolChainSpec op st (t + 1) vs)

theorem pushCodes_nil (st : VState) : pushCodes [] st = st := by
  unfold pushCodes
  split
  · simp
  · rename_i b hb
    simp only [List.append_nil]
    rw [← hb]

theorem pushCodes_pushCodes (l1 l2 : List JavaStatement) (st : VState) :
    pushCodes l2 (pushCodes l1 st) = pushCodes (l1 ++ l2) st := by
  unfold pushCodes
  cases h : st.local_block <;> simp [h]

theorem pushCodes_n_temps_comm (l : List JavaStatement) (st : VState) (n : Nat) :
    pushCodes l { st with n_temps := n } = { pushCodes l st with n_temps := n } := by
  unfold pushCodes
  cases h : st.local_block <;> simp [h]

theorem ident_expr_pushCodes (l : List JavaStatement) (st : VState) (name : String) :
    ident_expr (pushCodes l st) name = ident_expr st name := by
  unfold pushCodes
  cases h : st.local_block <;> simp [h, ident_expr]

theorem atomVal_pushCodes (l : List JavaStatement) (st : VState) (e : PyExpr) :
    atomVal (pushCodes l st) e = atomVal st e := by
  cases e with
  | name s => exact ident_expr_pushCodes l st s
  | call f args =>
      cases f <;> cases args <;>
        simp [atomVal, ident_expr_pushCodes]
  | _ => rfl

theorem ident_expr_eq_of_fields (st st' : VState)
    (h1 : st'.global_names = st.global_names)
    (h2 : st'.explicit_globals = st.explicit_globals)
    (h3 : st'.in_function = st.in_function)
    (h4 : st'.allow_intrinsics = st.allow_intrinsics) (name : String) :
    ident_expr st' name = ident_expr st name := by
  unfold ident_expr
  rw [h1, h2, h3, h4]

theorem atomVal_eq_of_fields (st st' : VState)
    (h1 : st'.global_names = st.global_names)
    (h2 : st'.explicit_globals = st.explicit_globals)
    (h3 : st'.in_function = st.in_function)
    (h4 : st'.allow_intrinsics = st.allow_intrinsics) (e : PyExpr) :
    atomVal st' e = atomVal st e := by
  cases e with
  | name s => exact ident_expr_eq_of_fields st st' h1 h2 h3 h4 s
  | call f args =>
      cases f <;> cases args <;>
        simp [atomVal, ident_expr_eq_of_fields st st' h1 h2 h3 h4]
  | constant c => rfl
  | compare l p => rfl
  | boolop o v => rfl

theorem compareSpecTerms_eq_of_fields (st st' : VState)
    (h1 : st'.global_names = st.global_names)
    (h2 : st'.explicit_globals = st.explicit_globals)
    (h3 : st'.in_function = st.in_function)
    (h4 : st'.allow_intrinsics = st.allow_intrinsics) :
    ∀ (pairs : List (CmpOp × PyExpr)) (t : Nat) (lhs : JavaExpr),
      compareSpecTerms st' t lhs pairs = compareSpecTerms st t lhs pairs := by
  intro pairs
  induction pairs with
  | nil => intro t lhs; rfl
  | cons p rest ih =>
      intro t lhs
      obtain ⟨op, c⟩ := p
      cases rest with
      | nil => simp [compareSpecTerms, atomVal_eq_of_fields st st' h1 h2 h3 h4]
      | cons q qs =>
          simp only [compareSpecTerms]
          rw [ih, atomVal_eq_of_fields st st' h1 h2 h3 h4]

theorem boolChainSpec_eq_of_fields (st st' : VState)
    (h1 : st'.global_names = st.global_names)
    (h2 : st'.explicit_globals = st.explicit_globals)
    (h3 : st'.in_function = st.in_function)
    (h4 : st'.allow_intrinsics = st.allow_intrinsics) :
    ∀ (values : List PyExpr) (op : BoolKind) (t : Nat),
      boolChainSpec op st' t values = boolChainSpec op st t values := by
  intro values
  induction values with
  | nil => intro op t; rfl
  | cons v vs ih =>
      intro op t
      cases vs with
      | nil => simp [boolChainSpec, atomVal_eq_of_fields st st' h1 h2 h3 h4]
      | cons w ws =>
          cases op <;>
            simp only [boolChainSpec] <;>
            rw [ih, atomVal_eq_of_fields st st' h1 h2 h3 h4]

theorem pushCodes_fields (l : List JavaStatement) (st : VState) :
    (pushCodes l st).global_names = st.global_names ∧
    (pushCodes l st).explicit_globals = st.explicit_globals ∧
    (pushCodes l st).in_function = st.in_function ∧
    (pushCodes l st).allow_intrinsics = st.allow_intrinsics ∧
    (pushCodes l st).n_temps = st.n_temps := by
  unfold pushCodes
  cases h : st.local_block <;> simp [h]

theorem tempDecls_succ (t k : Nat) :
    tempDecls t (k + 1)
      = .variableDecl "PyObject" (tempName t) none :: tempDecls (t + 1) k := by
  unfold tempDecls
  rw [List.range_succ_eq_map]
  simp only [List.map_cons, Nat.add_zero, List.map_map]
  congr 1
  apply List.map_congr_left
  intro j hj
  simp only [Function.comp_apply]
  have : t + (j + 1) = t + 1 + j := by omega
  rw [this]

theorem visitExpr_atom (e : PyExpr) (st : VState) (ha : isAtom e = true)
    (hi : st.allow_intrinsics = false) :
    visitExpr e st = (st, atomVal st e) := by
  cases e with
  | name s => rfl
  | constant c => simp [isAtom] at ha
  | compare l p => simp [isAtom] at ha
  | boolop o v => simp [isAtom] at ha
  | call f args =>
      cases f with
      | name s =>
          cases args with
          | nil => simp [visitExpr, visitExprList, hi, atomVal, isPyNextName]
          | cons a as => simp [isAtom] at ha
      | constant c => simp [isAtom] at ha
      | compare l p => simp [isAtom] at ha
      | boolop o v => simp [isAtom] at ha
      | call f2 a2 => simp [isAtom] at ha

theorem tempDecls_zero (t : Nat) : tempDecls t 0 = [] := rfl

theorem pushCodes_collapse (d : JavaStatement) (D : List JavaStatement) (st : VState)
    (n m : Nat) :
    pushCodes D { pushCodes [d] { st with n_temps := n } with n_temps := m }
      = pushCodes (d :: D) { st with n_temps := m } := by
  unfold pushCodes
  cases h : st.local_block <;> simp [h]

/-- One-step unfolding of the visit_Compare loop on two or more remaining
pairs. -/
theorem compareLoop_cons_cons (op : CmpOp) (c : PyExpr) (q : CmpOp × PyExpr)
    (qs : List (CmpOp × PyExpr)) (lhs : JavaExpr) (st : VState) :
    compareLoop lhs ((op, c) :: q :: qs) st =
      (let r := visitExpr c st
       let mt := make_temp r.1
       let st2 := pushCode (.variableDecl "PyObject" mt.2 none) mt.1
       let rr := compareLoop (.ident mt.2) (q :: qs) st2
       (rr.1, compare_term op lhs (.assignExpr (.ident mt.2) r.2) :: rr.2)) := rfl

theorem compareLoop_atoms (pairs : List (CmpOp × PyExpr)) :
    ∀ (st : VState) (lhs : JavaExpr), st.allow_intrinsics = false →
      (∀ p ∈ pairs, isAtom p.2 = true) →
      compareLoop lhs pairs st =
        (pushCodes (tempDecls st.n_temps (pairs.length - 1))
           { st with n_temps := st.n_temps + (pairs.length - 1) },
         compareSpecTerms st st.n_temps lhs pairs) := by
  induction pairs with
  | nil =>
      intro st lhs hi ha
      simp only [compareLoop, List.length_nil, Nat.zero_sub, Nat.add_zero,
        compareSpecTerms, tempDecls_zero]
      rw [pushCodes_nil]
  | cons p rest ih =>
      intro st lhs hi ha
      obtain ⟨op, c⟩ := p
      have hc : isAtom c = true := ha (op, c) (List.mem_cons_self _ _)
      cases rest with
      | nil =>
          show (let r := visitExpr c st;
            ((r.1, [compare_term op lhs r.2]) : VState × List JavaExpr)) = _
          rw [visitExpr_atom c st hc hi]
          simp only [List.length_cons, List.length_nil, Nat.add_sub_cancel, Nat.add_zero,
            compareSpecTerms, tempDecls_zero]
          rw [pushCodes_nil]
      | cons q qs =>
          have hrest : ∀ p ∈ q :: qs, isAtom p.2 = true :=
            fun p hp => ha p (List.mem_cons_of_mem _ hp)
          have hfields := pushCodes_fields
            [JavaStatement.variableDecl "PyObject" (tempName st.n_temps) none]
            { st with n_temps := st.n_temps + 1 }
          have hai2 : (pushCodes
              [JavaStatement.variableDecl "PyObject" (tempName st.n_temps) none]
              { st with n_temps := st.n_temps + 1 }).allow_intrinsics = false :=
            hfields.2.2.2.1.trans hi
          have hmain := ih (pushCodes
              [JavaStatement.variableDecl "PyObject" (tempName st.n_temps) none]
              { st with n_temps := st.n_temps + 1 })
            (.ident (tempName st.n_temps)) hai2 hrest
          have hn2 : (pushCodes
              [JavaStatement.variableDecl "PyObject" (tempName st.n_temps) none]
              { st with n_temps := st.n_temps + 1 }).n_temps = st.n_temps + 1 :=
            hfields.2.2.2.2
          rw [compareLoop_cons_cons]
          simp only [visitExpr_atom c st hc hi, make_temp, pushCode]
          rw [hmain, hn2]
          simp only [List.length_cons, Nat.add_sub_cancel, Prod.mk.injEq]
          constructor
          · rw [pushCodes_collapse, ← tempDecls_succ]
            have harith : st.n_temps + 1 + qs.length = st.n_temps + (qs.length + 1) := by
              omega
            rw [harith]
          · rw [compareSpecTerms_eq_of_fields st
              (pushCodes [JavaStatement.variableDecl "PyObject" (tempName st.n_temps) none]
                { st with n_temps := st.n_temps + 1 })
              hfields.1 hfields.2.1 hfields.2.2.1 hfields.2.2.2.1]
            rfl

/-- One-step unfolding of emit_bool_op on two or more values. -/
theorem emit_bool_op_cons_cons (op : BoolKind) (v w : PyExpr) (ws : List PyExpr)
    (st : VState) :
    emit_bool_op op (v :: w :: ws) st =
      (let mt := make_temp st
       let st2 := pushCode (.variableDecl "PyObject" mt.2 none) mt.1
       let rl := visitExpr v st2
       let rr := emit_bool_op op (w :: ws) rl.1
       match op with
       | .and => (rr.1, .condOp (bool_value (.assignExpr (.ident mt.2) rl.2)) rr.2 (.ident mt.2))
       | .or => (rr.1, .condOp (bool_value (.assignExpr (.ident mt.2) rl.2)) (.ident mt.2) rr.2)) :=
  rfl

theorem emit_bool_op_atoms (values : List PyExpr) :
    ∀ (st : VState) (op : BoolKind), st.allow_intrinsics = false →
      (∀ v ∈ values, isAtom v = true) → values ≠ [] →
      emit_bool_op op values st =
        (pushCodes (tempDecls st.n_temps (values.length - 1))
           { st with n_temps := st.n_temps + (values.length - 1) },
         boolChainSpec op st st.n_temps values) := by
  induction values with
  | nil =>
      intro st op hi ha hne
      exact absurd rfl hne
  | cons v vs ih =>
      intro st op hi ha hne
      have hv : isAtom v = true := ha v (List.mem_cons_self _ _)
      cases vs with
      | nil =>
          show visitExpr v st = _
          rw [visitExpr_atom v st hv hi]
          simp only [List.length_cons, List.length_nil, Nat.add_sub_cancel, Nat.add_zero,
            boolChainSpec, tempDecls_zero]
          rw [pushCodes_nil]
      | cons w ws =>
          have hrest : ∀ x ∈ w :: ws, isAtom x = true :=
            fun x hx => ha x (List.mem_cons_of_mem _ hx)
          have hfields := pushCodes_fields
            [JavaStatement.variableDecl "PyObject" (tempName st.n_temps) none]
            { st with n_temps := st.n_temps + 1 }
          have hai2 : (pushCodes
              [JavaStatement.variableDecl "PyObject" (tempName st.n_temps) none]
              { st with n_temps := st.n_temps + 1 }).allow_intrinsics = false :=
            hfields.2.2.2.1.trans hi
          have hmain := ih (pushCodes
              [JavaStatement.variableDecl "PyObject" (tempName st.n_temps) none]
              { st with n_temps := st.n_temps + 1 })
            op hai2 hrest (by simp)
          have hn2 : (pushCodes
              [JavaStatement.variableDecl "PyObject" (tempName st.n_temps) none]
              { st with n_temps := st.n_temps + 1 }).n_temps = st.n_temps + 1 :=
            hfields.2.2.2.2
          have hatom2 : atomVal (pushCodes
              [JavaStatement.variableDecl "PyObject" (tempName st.n_temps) none]
              { st with n_temps := st.n_temps + 1 }) v = atomVal st v :=
            atomVal_eq_of_fields st _ hfields.1 hfields.2.1 hfields.2.2.1 hfields.2.2.2.1 v
          rw [emit_bool_op_cons_cons]
          simp only [make_temp, pushCode,
            visitExpr_atom v _ hv hai2]
          rw [hmain, hn2]
          cases op
          · simp only [Prod.mk.injEq]
            constructor
            · rw [pushCodes_collapse, ← tempDecls_succ]
              have harith : st.n_temps + 1 + ((w :: ws).length - 1)
                  = st.n_temps + ((v :: w :: ws).length - 1) := by
                simp only [List.length_cons]
                omega
              have hlen : (w :: ws).length - 1 + 1 = (v :: w :: ws).length - 1 := by
                simp only [List.length_cons]
                omega
              rw [harith, hlen]
            · rw [hatom2, boolChainSpec_eq_of_fields st
                (pushCodes [JavaStatement.variableDecl "PyObject" (tempName st.n_temps) none]
                  { st with n_temps := st.n_temps + 1 })
                hfields.1 hfields.2.1 hfields.2.2.1 hfields.2.2.2.1]
              rfl
          · simp only [Prod.mk.injEq]
            constructor
            · rw [pushCodes_collapse, ← tempDecls_succ]
              have harith : st.n_temps + 1 + ((w :: ws).length - 1)
                  = st.n_temps + ((v :: w :: ws).length - 1) := by
                simp only [List.length_cons]
                omega
              have hlen : (w :: ws).length - 1 + 1 = (v :: w :: ws).length - 1 := by
                simp only [List.length_cons]
                omega
              rw [harith, hlen]
            · rw [hatom2, boolChainSpec_eq_of_fields st
                (pushCodes [JavaStatement.variableDecl "PyObject" (tempName st.n_temps) none]
                  { st with n_temps := st.n_temps + 1 })
                hfields.1 hfields.2.1 hfields.2.2.1 hfields.2.2.2.1]
              rfl

/-- C5: lowering a chained comparison over atomic comparands produces
PyBool.create of a conjunction of pairwise tests (compareSpecTerms: each
intermediate comparand is stored into a fresh temporary via
assignment-as-expression inside its first pairwise test and referenced as
that temporary in the next test), with exactly one fresh temporary
declaration per intermediate comparand; concretely, lowering
`a < f() < c` emits the call of f exactly once — inside the first test —
and the appended code holds only the temporary declaration, so f() is
evaluated exactly once regardless of outcome. -/
theorem chained_comparison_single_evaluation :
    (∀ (st : VState) (left : PyExpr) (pairs : List (CmpOp × PyExpr)),
        st.allow_intrinsics = false → isAtom left = true →
        (∀ p ∈ pairs, isAtom p.2 = true) →
        visitExpr (.compare left pairs) st =
          (pushCodes (tempDecls st.n_temps (pairs.length - 1))
             { st with n_temps := st.n_temps + (pairs.length - 1) },
           .methodCall (.ident "PyBool") "create"
             [chained_binary_op "&&" (compareSpecTerms st st.n_temps (atomVal st left) pairs)])) ∧
    (visitExpr (.compare (.name "a") [(CmpOp.lt, .call (.name "f") []), (CmpOp.lt, .name "c")])
        initState).2
      = .methodCall (.ident "PyBool") "create"
          [.binaryOp "&&"
            (.methodCall (.ident "pyglobal_a") "lt"
              [.assignExpr (.ident "temp0")
                (.methodCall (.ident "pyglobal_f") "call"
                  [.createArray "PyObject" [], .ident "null"])])
            (.methodCall (.ident "temp0") "lt" [.ident "pyglobal_c"])] ∧
    countSubexpr
        (.methodCall (.ident "pyglobal_f") "call" [.createArray "PyObject" [], .ident "null"])
        (visitExpr (.compare (.name "a") [(CmpOp.lt, .call (.name "f") []), (CmpOp.lt, .name "c")])
          initState).2 = 1 ∧
    (visitExpr (.compare (.name "a") [(CmpOp.lt, .call (.name "f") []), (CmpOp.lt, .name "c")])
        initState).1.global_code
      = [.variableDecl "PyObject" "expr_discard" none,
         .variableDecl "PyObject" "temp0" none] := by
  refine ⟨?_, rfl, rfl, rfl⟩
  intro st left pairs hi hl hp
  show (let r1 := visitExpr left st;
    let r2 := compareLoop r1.2 pairs r1.1;
    ((r2.1, .methodCall (.ident "PyBool") "create" [chained_binary_op "&&" r2.2])
      : VState × JavaExpr)) = _
  rw [visitExpr_atom left st hl hi]
  show (let r2 := compareLoop (atomVal st left) pairs st;
    ((r2.1, .methodCall (.ident "PyBool") "create" [chained_binary_op "&&" r2.2])
      : VState × JavaExpr)) = _
  rw [compareLoop_atoms pairs st (atomVal st left) hi hp]

/-- C5 witness: the general shape applied to the concrete chain
`a < b < c` from the initial state. -/
theorem chained_comparison_single_evaluation_witness :
    visitExpr (.compare (.name "a") [(CmpOp.lt, .name "b"), (CmpOp.lt, .name "c")]) initState
      = (pushCodes (tempDecls initState.n_temps 1) { initState with n_temps := initState.n_temps + 1 },
         .methodCall (.ident "PyBool") "create"
           [chained_binary_op "&&"
             (compareSpecTerms initState initState.n_temps (atomVal initState (.name "a"))
               [(CmpOp.lt, .name "b"), (CmpOp.lt, .name "c")])]) :=
  chained_comparison_single_evaluation.1 initState (.name "a")
    [(CmpOp.lt, .name "b"), (CmpOp.lt, .name "c")] rfl rfl (by decide)

/-- C6: lowering a boolean operator over atomic operands produces the
right-associated chain boolChainSpec — `(t = a).boolValue() ? rest : t` for
and, mirrored for or — introducing exactly one fresh temporary per binary
step (operand count minus one), the value of the whole expression being the
last-evaluated boxed operand; concretely for `a and b and c` the first
operand appears exactly once and only the temporary declarations are
appended. -/
theorem bool_op_short_circuit_lowering :
    (∀ (st : VState) (op : BoolKind) (v1 v2 : PyExpr) (vs : List PyExpr),
        st.allow_intrinsics = false →
        (∀ v ∈ v1 :: v2 :: vs, isAtom v = true) →
        visitExpr (.boolop op (v1 :: v2 :: vs)) st =
          (pushCodes (tempDecls st.n_temps ((v1 :: v2 :: vs).length - 1))
             { st with n_temps := st.n_temps + ((v1 :: v2 :: vs).length - 1) },
           boolChainSpec op st st.n_temps (v1 :: v2 :: vs))) ∧
    (visitExpr (.boolop .and [.name "a", .name "b", .name "c"]) initState).2
      = .condOp (.methodCall (.assignExpr (.ident "temp0") (.ident "pyglobal_a")) "boolValue" [])
          (.condOp (.methodCall (.assignExpr (.ident "temp1") (.ident "pyglobal_b")) "boolValue" [])
            (.ident "pyglobal_c")
            (.ident "temp1"))
          (.ident "temp0") ∧
    (visitExpr (.boolop .or [.name "a", .name "b", .name "c"]) initState).2
      = .condOp (.methodCall (.assignExpr (.ident "temp0") (.ident "pyglobal_a")) "boolValue" [])
          (.ident "temp0")
          (.condOp (.methodCall (.assignExpr (.ident "temp1") (.ident "pyglobal_b")) "boolValue" [])
            (.ident "temp1")
            (.ident "pyglobal_c")) ∧
    countSubexpr (.ident "pyglobal_a")
        (visitExpr (.boolop .and [.name "a", .name "b", .name "c"]) initState).2 = 1 ∧
    (visitExpr (.boolop .and [.name "a", .name "b", .name "c"]) initState).1.global_code
      = [.variableDecl "PyObject" "expr_discard" none,
         .variableDecl "PyObject" "temp0" none,
         .variableDecl "PyObject" "temp1" none] := by
  refine ⟨?_, rfl, rfl, rfl, rfl⟩
  intro st op v1 v2 vs hi ha
  show emit_bool_op op (v1 :: v2 :: vs) st = _
  exact emit_bool_op_atoms (v1 :: v2 :: vs) st op hi ha (by simp)

/-- C6 witness: the general shape applied to the concrete expression
`a and b and c` from the initial state. -/
theorem bool_op_short_circuit_lowering_witness :
    visitExpr (.boolop .and [.name "a", .name "b", .name "c"]) initState
      = (pushCodes (tempDecls initState.n_temps 2)
           { initState with n_temps := initState.n_temps + 2 },
         boolChainSpec .and initState initState.n_temps [.name "a", .name "b", .name "c"]) :=
  bool_op_short_circuit_lowering.1 initState .and (.name "a") (.name "b") [.name "c"]
    rfl (by decide)

/-! C10.  Break labels. -/

mutual

/-- The labels of the break statements of a statement that target an
enclosing (outer) construct: collection descends into if arms, try blocks
and labeled blocks, but not into while or for bodies, whose breaks target
that inner loop. -/
def stmtOuterBreakLabels : JavaStatement → List (Option String)
  | .breakStmt n => [n]
  | .ifStmt _ body orelse => blockOuterBreakLabels body ++ blockOuterBreakLabels orelse
  | .tryStmt tb _ _ cb fb =>
      blockOuterBreakLabels tb ++ blockOuterBreakLabels cb ++ blockOuterBreakLabels fb
  | .labeledBlock _ body => blockOuterBreakLabels body
  | _ => []

/-- blockOuterBreakLabels over a statement list. -/
def blockOuterBreakLabels : List JavaStatement → List (Option String)
  | [] => []
  | s :: rest => stmtOuterBreakLabels s ++ blockOuterBreakLabels rest

end

/-- The statements the lowering of one source statement appends to the
current statement list. -/
def appendedBy (s : PyStmt) (st : VState) : List JavaStatement :=
  (curCode (visitStmt s st)).drop (curCode st).length

/-- Every break label in the list is the given ambient label. -/
def BreaksAmb (l : List JavaStatement) (amb : Option String) : Prop :=
  ∀ x ∈ blockOuterBreakLabels l, x = amb

/-- Every statement of the list is a variable declaration. -/
def DeclsOnly (l : List JavaStatement) : Prop :=
  ∀ s ∈ l, ∃ t n v, s = JavaStatement.variableDecl t n v

/-- Frame of an expression-lowering step: scope fields and the break label
are untouched, the temporary counter only grows, and the current statement
list is only extended, with variable declarations. -/
def ExprFrame (st st' : VState) : Prop :=
  st'.break_name = st.break_name ∧
  st'.in_function = st.in_function ∧
  st'.allow_intrinsics = st.allow_intrinsics ∧
  st.n_temps ≤ st'.n_temps ∧
  (match st.local_block with
   | none => st'.local_block = none ∧
       ∃ app, st'.global_code = st.global_code ++ app ∧ DeclsOnly app
   | some b => (∃ app, st'.local_block = some (b ++ app) ∧ DeclsOnly app) ∧
       st'.global_code = st.global_code)

/-- Frame of a statement-lowering step: the break label, function flag and
intrinsics flag are restored, the temporary counter only grows, the current
statement list is only extended and every break appended to it carries the
ambient break label, and any statements appended to the module list while a
local block is active (function-object assignments) contain no breaks. -/
def StmtFrame (st st' : VState) : Prop :=
  st'.break_name = st.break_name ∧
  st'.in_function = st.in_function ∧
  st'.allow_intrinsics = st.allow_intrinsics ∧
  st.n_temps ≤ st'.n_temps ∧
  (match st.local_block with
   | none => st'.local_block = none ∧
       ∃ app, st'.global_code = st.global_code ++ app ∧ BreaksAmb app st.break_name
   | some b => (∃ app, st'.local_block = some (b ++ app) ∧ BreaksAmb app st.break_name) ∧
       ∃ gapp, st'.global_code = st.global_code ++ gapp ∧ blockOuterBreakLabels gapp = [])

theorem blockOuterBreakLabels_append (l1 l2 : List JavaStatement) :
    blockOuterBreakLabels (l1 ++ l2)
      = blockOuterBreakLabels l1 ++ blockOuterBreakLabels l2 := by
  induction l1 with
  | nil => rfl
  | cons s rest ih => simp [blockOuterBreakLabels, ih]

theorem declsOnly_breaks (l : List JavaStatement) (h : DeclsOnly l) :
    blockOuterBreakLabels l = [] := by
  induction l with
  | nil => rfl
  | cons s rest ih =>
      obtain ⟨t, n, v, hs⟩ := h s (List.mem_cons_self _ _)
      rw [blockOuterBreakLabels, hs]
      exact ih (fun x hx => h x (List.mem_cons_of_mem _ hx))

theorem breaksAmb_nil (amb : Option String) : BreaksAmb [] amb := by
  intro x hx
  cases hx

theorem breaksAmb_append (l1 l2 : List JavaStatement) (amb : Option String)
    (h1 : BreaksAmb l1 amb) (h2 : BreaksAmb l2 amb) : BreaksAmb (l1 ++ l2) amb := by
  intro x hx
  rw [blockOuterBreakLabels_append, List.mem_append] at hx
  rcases hx with hx | hx
  · exact h1 x hx
  · exact h2 x hx

theorem breaksAmb_of_declsOnly (l : List JavaStatement) (amb : Option String)
    (h : DeclsOnly l) : BreaksAmb l amb := by
  intro x hx
  rw [declsOnly_breaks l h] at hx
  cases hx

theorem blockOuterBreakLabels_simplify (bs : List JavaStatement) (x : Option String)
    (h : x ∈ blockOuterBreakLabels (block_simplify bs)) : x ∈ blockOuterBreakLabels bs := by
  obtain ⟨t, ht⟩ : ∃ t, bs = block_simplify bs ++ t := by
    rw [block_simplify_eq_take]
    exact ⟨bs.drop (bs.findIdx (fun s => ends_control_flow s) + 1), (List.take_append_drop _ _).symm⟩
  rw [ht, blockOuterBreakLabels_append, List.mem_append]
  exact Or.inl h

theorem declsOnly_nil : DeclsOnly [] :=
  fun s hs => absurd hs (List.not_mem_nil s)

theorem exprFrame_refl (st : VState) : ExprFrame st st := by
  refine ⟨rfl, rfl, rfl, le_refl _, ?_⟩
  cases h : st.local_block with
  | none =>
      simp only [h]
      exact ⟨trivial, [], by simp, declsOnly_nil⟩
  | some b =>
      simp only [h]
      exact ⟨⟨[], by simp, declsOnly_nil⟩, trivial⟩

theorem exprFrame_trans {st1 st2 st3 : VState}
    (h1 : ExprFrame st1 st2) (h2 : ExprFrame st2 st3) : ExprFrame st1 st3 := by
  obtain ⟨hb1, hf1, ha1, hn1, hc1⟩ := h1
  obtain ⟨hb2, hf2, ha2, hn2, hc2⟩ := h2
  refine ⟨hb2.trans hb1, hf2.trans hf1, ha2.trans ha1, le_trans hn1 hn2, ?_⟩
  cases h : st1.local_block with
  | none =>
      rw [h] at hc1
      obtain ⟨hl2, app1, hg1, hd1⟩ := hc1
      rw [hl2] at hc2
      obtain ⟨hl3, app2, hg2, hd2⟩ := hc2
      simp only [h]
      refine ⟨hl3, app1 ++ app2, ?_, ?_⟩
      · rw [hg2, hg1, List.append_assoc]
      · intro s hs
        rcases List.mem_append.mp hs with hs | hs
        · exact hd1 s hs
        · exact hd2 s hs
  | some b =>
      rw [h] at hc1
      obtain ⟨⟨app1, hl2, hd1⟩, hg1⟩ := hc1
      rw [hl2] at hc2
      obtain ⟨⟨app2, hl3, hd2⟩, hg2⟩ := hc2
      simp only [h]
      refine ⟨⟨app1 ++ app2, ?_, ?_⟩, hg2.trans hg1⟩
      · rw [hl3, List.append_assoc]
      · intro s hs
        rcases List.mem_append.mp hs with hs | hs
        · exact hd1 s hs
        · exact hd2 s hs

theorem exprFrame_pushDecl (st : VState) (t n : String) (v : Option JavaExpr) :
    ExprFrame st (pushCode (.variableDecl t n v) st) := by
  unfold pushCode pushCodes
  cases h : st.local_block with
  | none =>
      refine ⟨rfl, rfl, rfl, le_refl _, ?_⟩
      simp only [h]
      refine ⟨?_, [.variableDecl t n v], ?_, ?_⟩
      · trivial
      · trivial
      · intro s hs
        rw [List.mem_singleton] at hs
        exact ⟨t, n, v, hs⟩
  | some b =>
      refine ⟨rfl, rfl, rfl, le_refl _, ?_⟩
      simp only [h]
      refine ⟨⟨[.variableDecl t n v], ?_, ?_⟩, ?_⟩
      · trivial
      · intro s hs
        rw [List.mem_singleton] at hs
        exact ⟨t, n, v, hs⟩
      · trivial

theorem exprFrame_setTemps (st : VState) (n : Nat) (hn : st.n_temps ≤ n) :
    ExprFrame st { st with n_temps := n } := by
  refine ⟨rfl, rfl, rfl, hn, ?_⟩
  cases h : st.local_block with
  | none =>
      simp only [h]
      exact ⟨trivial, [], by simp, declsOnly_nil⟩
  | some b =>
      simp only [h]
      exact ⟨⟨[], by simp, declsOnly_nil⟩, trivial⟩

theorem exprFrame_setCtx (st : VState) (c : EmitContext) :
    ExprFrame st { st with emit_ctx := c } := by
  refine ⟨rfl, rfl, rfl, le_refl _, ?_⟩
  cases h : st.local_block with
  | none =>
      simp only [h]
      exact ⟨trivial, [], by simp, declsOnly_nil⟩
  | some b =>
      simp only [h]
      exact ⟨⟨[], by simp, declsOnly_nil⟩, trivial⟩

mutual

theorem visitExpr_frame : ∀ (e : PyExpr) (st : VState), ExprFrame st (visitExpr e st).1
  | .name _, st => exprFrame_refl st
  | .constant c, st => exprFrame_setCtx st (emit_constant c st.emit_ctx).1
  | .compare left pairs, st =>
      exprFrame_trans (visitExpr_frame left st)
        (compareLoop_frame pairs (visitExpr left st).2 (visitExpr left st).1)
  | .boolop op values, st => emit_bool_op_frame values op st
  | .call f [], st => by
      simp only [visitExpr]
      split
      · exact exprFrame_refl st
      · exact exprFrame_trans (visitExpr_frame f st)
          (visitExprList_frame [] (visitExpr f st).1)
  | .call f [a], st => by
      simp only [visitExpr]
      split
      · exact visitExpr_frame a st
      · exact exprFrame_trans (visitExpr_frame f st)
          (visitExprList_frame [a] (visitExpr f st).1)
  | .call f (a :: b :: rest), st => by
      simp only [visitExpr]
      split
      · exact exprFrame_refl st
      · exact exprFrame_trans (visitExpr_frame f st)
          (visitExprList_frame (a :: b :: rest) (visitExpr f st).1)

theorem visitExprList_frame : ∀ (es : List PyExpr) (st : VState),
    ExprFrame st (visitExprList es st).1
  | [], st => exprFrame_refl st
  | e :: es, st =>
      exprFrame_trans (visitExpr_frame e st) (visitExprList_frame es (visitExpr e st).1)

theorem compareLoop_frame : ∀ (pairs : List (CmpOp × PyExpr)) (lhs : JavaExpr) (st : VState),
    ExprFrame st (compareLoop lhs pairs st).1
  | [], _, st => exprFrame_refl st
  | [(_, comp)], _, st => visitExpr_frame comp st
  | (_, comp) :: q :: qs, _, st =>
      exprFrame_trans (visitExpr_frame comp st)
        (exprFrame_trans
          (exprFrame_setTemps (visitExpr comp st).1 ((visitExpr comp st).1.n_temps + 1)
            (Nat.le_succ _))
          (exprFrame_trans
            (exprFrame_pushDecl _ "PyObject" (tempName (visitExpr comp st).1.n_temps) none)
            (compareLoop_frame (q :: qs) (.ident (tempName (visitExpr comp st).1.n_temps)) _)))

theorem emit_bool_op_frame : ∀ (values : List PyExpr) (op : BoolKind) (st : VState),
    ExprFrame st (emit_bool_op op values st).1
  | [], _, st => exprFrame_refl st
  | [v], _, st => visitExpr_frame v st
  | v :: w :: ws, .and, st =>
      exprFrame_trans (exprFrame_setTemps st (st.n_temps + 1) (Nat.le_succ _))
        (exprFrame_trans
          (exprFrame_pushDecl { st with n_temps := st.n_temps + 1 } "PyObject"
            (tempName st.n_temps) none)
          (exprFrame_trans (visitExpr_frame v _) (emit_bool_op_frame (w :: ws) .and _)))
  | v :: w :: ws, .or, st =>
      exprFrame_trans (exprFrame_setTemps st (st.n_temps + 1) (Nat.le_succ _))
        (exprFrame_trans
          (exprFrame_pushDecl { st with n_temps := st.n_temps + 1 } "PyObject"
            (tempName st.n_temps) none)
          (exprFrame_trans (visitExpr_frame v _) (emit_bool_op_frame (w :: ws) .or _)))

end

theorem breaksAmb_no_breaks (l : List JavaStatement) (amb : Option String)
    (h : blockOuterBreakLabels l = []) : BreaksAmb l amb := by
  intro x hx
  rw [h] at hx
  cases hx

theorem stmtFrame_refl (st : VState) : StmtFrame st st := by
  refine ⟨rfl, rfl, rfl, le_refl _, ?_⟩
  cases h : st.local_block with
  | none =>
      simp only [h]
      exact ⟨trivial, [], by simp, breaksAmb_nil _⟩
  | some b =>
      simp only [h]
      exact ⟨⟨[], by simp, breaksAmb_nil _⟩, [], by simp, rfl⟩

theorem stmtFrame_trans {st1 st2 st3 : VState}
    (h1 : StmtFrame st1 st2) (h2 : StmtFrame st2 st3) : StmtFrame st1 st3 := by
  obtain ⟨hb1, hf1, ha1, hn1, hc1⟩ := h1
  obtain ⟨hb2, hf2, ha2, hn2, hc2⟩ := h2
  refine ⟨hb2.trans hb1, hf2.trans hf1, ha2.trans ha1, le_trans hn1 hn2, ?_⟩
  have hbeq : st2.break_name = st1.break_name := hb2.trans hb1 ▸ hb1
  cases h : st1.local_block with
  | none =>
      rw [h] at hc1
      obtain ⟨hl2, app1, hg1, hd1⟩ := hc1
      rw [hl2] at hc2
      obtain ⟨hl3, app2, hg2, hd2⟩ := hc2
      simp only [h]
      refine ⟨hl3, app1 ++ app2, ?_, ?_⟩
      · rw [hg2, hg1, List.append_assoc]
      · refine breaksAmb_append app1 app2 _ hd1 ?_
        intro x hx
        rw [hb1] at hd2
        exact hd2 x hx
  | some b =>
      rw [h] at hc1
      obtain ⟨⟨app1, hl2, hd1⟩, gapp1, hg1, hgl1⟩ := hc1
      rw [hl2] at hc2
      obtain ⟨⟨app2, hl3, hd2⟩, gapp2, hg2, hgl2⟩ := hc2
      simp only [h]
      refine ⟨⟨app1 ++ app2, ?_, ?_⟩, gapp1 ++ gapp2, ?_, ?_⟩
      · rw [hl3, List.append_assoc]
      · refine breaksAmb_append app1 app2 _ hd1 ?_
        intro x hx
        rw [hb1] at hd2
        exact hd2 x hx
      · rw [hg2, hg1, List.append_assoc]
      · rw [blockOuterBreakLabels_append, hgl1, hgl2]
        rfl

theorem stmtFrame_of_exprFrame {st st' : VState} (h : ExprFrame st st') : StmtFrame st st' := by
  obtain ⟨hb, hf, ha, hn, hc⟩ := h
  refine ⟨hb, hf, ha, hn, ?_⟩
  cases hl : st.local_block with
  | none =>
      rw [hl] at hc
      obtain ⟨h1, app, h2, h3⟩ := hc
      simp only [hl]
      exact ⟨h1, app, h2, breaksAmb_of_declsOnly app _ h3⟩
  | some b =>
      rw [hl] at hc
      obtain ⟨⟨app, h2, h3⟩, hg⟩ := hc
      simp only [hl]
      exact ⟨⟨app, h2, breaksAmb_of_declsOnly app _ h3⟩, [], by simp [hg], rfl⟩

theorem stmtFrame_of_untouched (st st' : VState)
    (hb : st'.break_name = st.break_name) (hf : st'.in_function = st.in_function)
    (ha : st'.allow_intrinsics = st.allow_intrinsics) (hn : st.n_temps ≤ st'.n_temps)
    (hl : st'.local_block = st.local_block) (hg : st'.global_code = st.global_code) :
    StmtFrame st st' := by
  refine ⟨hb, hf, ha, hn, ?_⟩
  cases h : st.local_block with
  | none =>
      simp only [h]
      refine ⟨by rw [hl, h], [], by simp [hg], breaksAmb_nil _⟩
  | some b =>
      simp only [h]
      exact ⟨⟨[], by simp [hl, h], breaksAmb_nil _⟩, [], by simp [hg], rfl⟩

theorem stmtFrame_pushes (l : List JavaStatement) (st : VState)
    (h : BreaksAmb l st.break_name) : StmtFrame st (pushCodes l st) := by
  unfold pushCodes
  cases hb : st.local_block with
  | none =>
      refine ⟨rfl, rfl, rfl, le_refl _, ?_⟩
      simp only [hb]
      exact ⟨trivial, l, by trivial, h⟩
  | some b =>
      refine ⟨rfl, rfl, rfl, le_refl _, ?_⟩
      simp only [hb]
      exact ⟨⟨l, by trivial, h⟩, [], by simp, rfl⟩

theorem stmtFrame_extract {st0 st1 : VState} (h : StmtFrame st0 st1)
    (hl : st0.local_block = some []) :
    ∃ app gapp, st1.local_block = some app ∧ BreaksAmb app st0.break_name ∧
      st1.global_code = st0.global_code ++ gapp ∧ blockOuterBreakLabels gapp = [] ∧
      st1.break_name = st0.break_name ∧ st1.in_function = st0.in_function ∧
      st1.allow_intrinsics = st0.allow_intrinsics ∧ st0.n_temps ≤ st1.n_temps := by
  obtain ⟨hb, hf, ha, hn, hc⟩ := h
  rw [hl] at hc
  obtain ⟨⟨app, hla, hba⟩, gapp, hg, hgl⟩ := hc
  exact ⟨app, gapp, by simpa using hla, hba, hg, hgl, hb, hf, ha, hn⟩

theorem blockOuterBreakLabels_while_statement (c : JavaExpr) (B : List JavaStatement) :
    blockOuterBreakLabels (while_statement c B) = [] := by
  unfold while_statement
  split
  · rfl
  · simp [blockOuterBreakLabels, stmtOuterBreakLabels, javaWhileStatement]

theorem breaksAmb_if_statement (c : JavaExpr) (B O : List JavaStatement) (amb : Option String)
    (hB : BreaksAmb B amb) (hO : BreaksAmb O amb) : BreaksAmb (if_statement c B O) amb := by
  unfold if_statement
  split
  · exact hB
  · exact hO
  · intro x hx
    simp only [javaIfStatement, blockOuterBreakLabels, stmtOuterBreakLabels,
      List.append_nil] at hx
    rw [List.mem_append] at hx
    rcases hx with hx | hx
    · exact hB x (blockOuterBreakLabels_simplify B x hx)
    · exact hO x (blockOuterBreakLabels_simplify O x hx)

theorem breaksAmb_labeledBlock (n : String) (B : List JavaStatement) (amb : Option String)
    (hB : BreaksAmb B amb) : BreaksAmb [javaLabeledBlock n B] amb := by
  intro x hx
  simp only [javaLabeledBlock, blockOuterBreakLabels, stmtOuterBreakLabels,
    List.append_nil] at hx
  exact hB x (blockOuterBreakLabels_simplify B x hx)

theorem breaksAmb_congr {l : List JavaStatement} {a b : Option String}
    (h : a = b) (hb : BreaksAmb l a) : BreaksAmb l b := h ▸ hb

/-- After lowering a block in a fresh statement list entered from `stA` with
break label `L`, any state that restores the break label and the saved
statement list while keeping the produced flags, counter and module code is
a statement frame of `stA`. -/
theorem stmtFrame_restore (stA : VState) (L : Option String) (s1 st' : VState)
    (h : StmtFrame { stA with break_name := L, local_block := some [] } s1)
    (hb : st'.break_name = stA.break_name) (hf : st'.in_function = s1.in_function)
    (ha : st'.allow_intrinsics = s1.allow_intrinsics)
    (hn : s1.n_temps ≤ st'.n_temps)
    (hl : st'.local_block = stA.local_block) (hg : st'.global_code = s1.global_code) :
    StmtFrame stA st' := by
  obtain ⟨app, gapp, h1, h2, h3, h4, h5, h6, h7, h8⟩ := stmtFrame_extract h rfl
  refine ⟨hb, hf.trans h6, ha.trans h7, le_trans h8 hn, ?_⟩
  cases hL : stA.local_block with
  | none =>
      simp only [hL]
      refine ⟨by rw [hl, hL], gapp, by rw [hg, h3], breaksAmb_no_breaks _ _ h4⟩
  | some b =>
      simp only [hL]
      exact ⟨⟨[], by simp [hl, hL], breaksAmb_nil _⟩, gapp, by rw [hg, h3], h4⟩

/-- The block extracted by popBlock after lowering into a fresh statement
list only contains breaks that target the installed label. -/
theorem breaksAmb_popBlock (stA : VState) (L : Option String) (s1 : VState)
    (saved : Option (List JavaStatement))
    (h : StmtFrame { stA with break_name := L, local_block := some [] } s1) :
    BreaksAmb (popBlock saved s1).2 L := by
  obtain ⟨app, gapp, h1, h2, h3, h4, h5, h6, h7, h8⟩ := stmtFrame_extract h rfl
  have hpop : (popBlock saved s1).2 = app := by simp only [popBlock, h1]
  rw [hpop]
  exact h2

theorem stmtFrame_namesAdd (n : String) (st : VState) : StmtFrame st (namesAdd n st) := by
  unfold namesAdd
  split
  · exact stmtFrame_of_untouched _ _ rfl rfl rfl (le_refl _) rfl rfl
  · exact stmtFrame_of_untouched _ _ rfl rfl rfl (le_refl _) rfl rfl

/-- Appending break-free statements directly to the module statement list
(the function-object assignment of visit_FunctionDef) is a statement frame. -/
theorem stmtFrame_pushGlobal (st : VState) (l : List JavaStatement)
    (h : blockOuterBreakLabels l = []) :
    StmtFrame st { st with global_code := st.global_code ++ l } := by
  refine ⟨rfl, rfl, rfl, le_refl _, ?_⟩
  cases hL : st.local_block with
  | none =>
      simp only [hL]
      exact ⟨trivial, l, by trivial, breaksAmb_no_breaks _ _ h⟩
  | some b =>
      simp only [hL]
      exact ⟨⟨[], by simp [hL], breaksAmb_nil _⟩, l, by trivial, h⟩

/-- The new_block round trip of the loop visitors: lower into a fresh list
with an installed break label, restore the saved list and the saved label. -/
theorem stmtFrame_popRestore (stA : VState) (L : Option String) (s1 : VState)
    (h : StmtFrame { stA with break_name := L, local_block := some [] } s1) :
    StmtFrame stA { (popBlock stA.local_block s1).1 with break_name := stA.break_name } :=
  stmtFrame_restore stA L s1
    { (popBlock stA.local_block s1).1 with break_name := stA.break_name }
    h rfl rfl rfl (le_refl _) rfl rfl

/-- The new_block round trip of visit_If: lower into a fresh list without
touching the break label, restore the saved list. -/
theorem stmtFrame_popKeep (stA : VState) (s1 : VState)
    (h : StmtFrame { stA with local_block := some [] } s1) :
    StmtFrame stA (popBlock stA.local_block s1).1 :=
  stmtFrame_restore stA stA.break_name s1 (popBlock stA.local_block s1).1
    h h.1 rfl rfl (le_refl _) rfl rfl

mutual

/-- Every statement lowering is a statement frame: the break label and scope
flags are restored, the temporary counter only grows, and every appended
break targets the ambient break label. -/
theorem visitStmt_frame : ∀ (s : PyStmt) (st : VState), StmtFrame st (visitStmt s st)
  | .pass, st => stmtFrame_refl st
  | .brk, st =>
      stmtFrame_pushes [.breakStmt st.break_name] st (fun x hx => by
        simpa [blockOuterBreakLabels, stmtOuterBreakLabels] using hx)
  | .cont, st => stmtFrame_pushes [.continueStmt] st (breaksAmb_no_breaks _ _ rfl)
  | .ret (some e), st =>
      stmtFrame_trans (stmtFrame_of_exprFrame (visitExpr_frame e st))
        (stmtFrame_pushes [.returnStmt (visitExpr e st).2] (visitExpr e st).1
          (breaksAmb_no_breaks _ _ rfl))
  | .ret none, st =>
      stmtFrame_trans
        (stmtFrame_of_exprFrame (exprFrame_setCtx st (emit_constant .none st.emit_ctx).1))
        (stmtFrame_pushes [.returnStmt (emit_constant .none st.emit_ctx).2]
          { st with emit_ctx := (emit_constant .none st.emit_ctx).1 }
          (breaksAmb_no_breaks _ _ rfl))
  | .assign target value, st =>
      stmtFrame_trans (stmtFrame_of_exprFrame (visitExpr_frame value st))
        (stmtFrame_trans (stmtFrame_namesAdd target (visitExpr value st).1)
          (stmtFrame_pushes
            [.assignStmt (ident_expr (namesAdd target (visitExpr value st).1) target)
              (visitExpr value st).2]
            (namesAdd target (visitExpr value st).1)
            (breaksAmb_no_breaks _ _ rfl)))
  | .exprStmt e, st => by
      simp only [visitStmt]
      refine stmtFrame_trans (stmtFrame_of_exprFrame (visitExpr_frame e st)) ?_
      split
      · refine stmtFrame_pushes _ _ ?_
        exact breaksAmb_no_breaks _ _ rfl
      · refine stmtFrame_pushes _ _ ?_
        exact breaksAmb_no_breaks _ _ rfl
      · refine stmtFrame_trans (stmtFrame_pushes
          [.assignStmt (.ident "expr_discard") (visitExpr e st).2] (visitExpr e st).1
          (breaksAmb_no_breaks _ _ rfl))
          (stmtFrame_of_untouched _ _ rfl rfl rfl (le_refl _) rfl rfl)
  | .sGlobal ns, st => by
      simp only [visitStmt]
      split
      · exact stmtFrame_of_untouched _ _ rfl rfl rfl (le_refl _) rfl rfl
      · exact stmtFrame_of_untouched _ _ rfl rfl rfl (le_refl _) rfl rfl
  | .sIf test body orelse, st => by
      have hB := visitBlock_frame body { (visitExpr test st).1 with local_block := some [] }
      have hO := visitBlock_frame orelse
        { (popBlock (visitExpr test st).1.local_block
            (visitBlock body { (visitExpr test st).1 with local_block := some [] })).1 with
          local_block := some [] }
      refine stmtFrame_trans (stmtFrame_of_exprFrame (visitExpr_frame test st)) ?_
      refine stmtFrame_trans (stmtFrame_popKeep (visitExpr test st).1 _ hB) ?_
      refine stmtFrame_trans (stmtFrame_popKeep _ _ hO) ?_
      refine stmtFrame_pushes _ _ ?_
      refine breaksAmb_congr ?_ (breaksAmb_if_statement _ _ _
        ((visitExpr test st).1.break_name)
        (breaksAmb_popBlock _ _ _ _ hB)
        (breaksAmb_congr hB.1 (breaksAmb_popBlock _ _ _ _ hO)))
      exact (hO.1.trans hB.1).symm
  | .sWhile test body [], st => by
      have hB := visitBlock_frame body
        { (visitExpr test st).1 with break_name := none, local_block := some [] }
      refine stmtFrame_trans (stmtFrame_of_exprFrame (visitExpr_frame test st)) ?_
      refine stmtFrame_trans (stmtFrame_popRestore (visitExpr test st).1 none _ hB) ?_
      refine stmtFrame_pushes _ _ ?_
      exact breaksAmb_no_breaks _ _ (blockOuterBreakLabels_while_statement _ _)
  | .sWhile test body (o :: os), st => by
      have hB := visitBlock_frame body
        { (make_temp (visitExpr test st).1).1 with
            break_name := some (make_temp (visitExpr test st).1).2, local_block := some [] }
      have hO := visitBlock_frame (o :: os)
        { { (popBlock (make_temp (visitExpr test st).1).1.local_block
              (visitBlock body
                { (make_temp (visitExpr test st).1).1 with
                    break_name := some (make_temp (visitExpr test st).1).2,
                    local_block := some [] })).1 with
            break_name := (make_temp (visitExpr test st).1).1.break_name } with
          local_block := some [] }
      refine stmtFrame_trans (stmtFrame_of_exprFrame (visitExpr_frame test st)) ?_
      refine stmtFrame_trans (stmtFrame_of_untouched (visitExpr test st).1
        (make_temp (visitExpr test st).1).1 rfl rfl rfl (Nat.le_succ _) rfl rfl) ?_
      refine stmtFrame_trans (stmtFrame_popRestore (make_temp (visitExpr test st).1).1
        (some (make_temp (visitExpr test st).1).2) _ hB) ?_
      refine stmtFrame_trans (stmtFrame_popKeep _ _ hO) ?_
      refine stmtFrame_pushes _ _ ?_
      refine breaksAmb_congr ?_
        (breaksAmb_labeledBlock _ _ _
          (breaksAmb_append _ _ _
            (breaksAmb_no_breaks _ _ (blockOuterBreakLabels_while_statement _ _))
            (breaksAmb_popBlock _ _ _ _ hO)))
      exact hO.1.symm
  | .sFor target iter body [], st => by
      have hB := visitBlock_frame body
        { pushCode (.variableDecl "var" (make_temp st).2
            (some (.methodCall (visitExpr iter (make_temp (make_temp st).1).1).2 "iter" [])))
            (visitExpr iter (make_temp (make_temp st).1).1).1 with
          break_name := none, local_block := some [] }
      refine stmtFrame_trans (stmtFrame_of_untouched st (make_temp st).1
        rfl rfl rfl (Nat.le_succ _) rfl rfl) ?_
      refine stmtFrame_trans (stmtFrame_of_untouched (make_temp st).1
        (make_temp (make_temp st).1).1 rfl rfl rfl (Nat.le_succ _) rfl rfl) ?_
      refine stmtFrame_trans (stmtFrame_of_exprFrame
        (visitExpr_frame iter (make_temp (make_temp st).1).1)) ?_
      refine stmtFrame_trans (stmtFrame_pushes
        [.variableDecl "var" (make_temp st).2
          (some (.methodCall (visitExpr iter (make_temp (make_temp st).1).1).2 "iter" []))]
        (visitExpr iter (make_temp (make_temp st).1).1).1
        (breaksAmb_no_breaks _ _ rfl)) ?_
      refine stmtFrame_trans (stmtFrame_popRestore _ none _ hB) ?_
      refine stmtFrame_trans (stmtFrame_namesAdd target _) ?_
      refine stmtFrame_pushes _ _ ?_
      exact breaksAmb_no_breaks _ _ rfl
  | .sFor target iter body (o :: os), st => by
      have hB := visitBlock_frame body
        { pushCode (.variableDecl "var" (make_temp (make_temp st).1).2
            (some (.methodCall
              (visitExpr iter (make_temp (make_temp (make_temp st).1).1).1).2 "iter" [])))
            (visitExpr iter (make_temp (make_temp (make_temp st).1).1).1).1 with
          break_name := some (make_temp st).2, local_block := some [] }
      have hO := visitBlock_frame (o :: os)
        { namesAdd target
            { (popBlock
                (pushCode (.variableDecl "var" (make_temp (make_temp st).1).2
                  (some (.methodCall
                    (visitExpr iter (make_temp (make_temp (make_temp st).1).1).1).2 "iter" [])))
                  (visitExpr iter (make_temp (make_temp (make_temp st).1).1).1).1).local_block
                (visitBlock body
                  { pushCode (.variableDecl "var" (make_temp (make_temp st).1).2
                      (some (.methodCall
                        (visitExpr iter (make_temp (make_temp (make_temp st).1).1).1).2
                        "iter" [])))
                      (visitExpr iter (make_temp (make_temp (make_temp st).1).1).1).1 with
                    break_name := some (make_temp st).2, local_block := some [] })).1 with
              break_name :=
                (pushCode (.variableDecl "var" (make_temp (make_temp st).1).2
                  (some (.methodCall
                    (visitExpr iter (make_temp (make_temp (make_temp st).1).1).1).2 "iter" [])))
                  (visitExpr iter (make_temp (make_temp (make_temp st).1).1).1).1).break_name }
          with local_block := some [] }
      refine stmtFrame_trans (stmtFrame_of_untouched st (make_temp st).1
        rfl rfl rfl (Nat.le_succ _) rfl rfl) ?_
      refine stmtFrame_trans (stmtFrame_of_untouched (make_temp st).1
        (make_temp (make_temp st).1).1 rfl rfl rfl (Nat.le_succ _) rfl rfl) ?_
      refine stmtFrame_trans (stmtFrame_of_untouched (make_temp (make_temp st).1).1
        (make_temp (make_temp (make_temp st).1).1).1 rfl rfl rfl (Nat.le_succ _) rfl rfl) ?_
      refine stmtFrame_trans (stmtFrame_of_exprFrame
        (visitExpr_frame iter (make_temp (make_temp (make_temp st).1).1).1)) ?_
      refine stmtFrame_trans (stmtFrame_pushes
        [.variableDecl "var" (make_temp (make_temp st).1).2
          (some (.methodCall
            (visitExpr iter (make_temp (make_temp (make_temp st).1).1).1).2 "iter" []))]
        (visitExpr iter (make_temp (make_temp (make_temp st).1).1).1).1
        (breaksAmb_no_breaks _ _ rfl)) ?_
      refine stmtFrame_trans (stmtFrame_popRestore _ (some (make_temp st).2) _ hB) ?_
      refine stmtFrame_trans (stmtFrame_namesAdd target _) ?_
      refine stmtFrame_trans (stmtFrame_popKeep _ _ hO) ?_
      refine stmtFrame_pushes _ _ ?_
      refine breaksAmb_congr ?_
        (breaksAmb_labeledBlock _ _ _
          (breaksAmb_append _ _ _
            (breaksAmb_no_breaks _ _ rfl)
            (breaksAmb_popBlock _ _ _ _ hO)))
      exact hO.1.symm
  | .funcDef fname args body, st => by
      cases hif : st.in_function with
      | true =>
          have hEq : visitStmt (.funcDef fname args body) st
              = { st with n_errors := st.n_errors + 1 } := by
            simp [visitStmt, hif]
          rw [hEq]
          exact stmtFrame_of_untouched _ _ rfl rfl rfl (le_refl _) rfl rfl
      | false =>
          have hB := visitBlock_frame body
            { st with global_names := addName fname st.global_names,
                      global_code := st.global_code ++
                        [JavaStatement.assignStmt (.ident ("pyglobal_" ++ fname))
                          (.createObject ("pyfunc_" ++ fname) [])],
                      in_function := true, used_expr_discard := false,
                      local_names := [], explicit_globals := [],
                      n_temps := 0, local_block := some [] }
          obtain ⟨_, gapp, _, _, h3, h4, h5, _, h7, _⟩ := stmtFrame_extract hB rfl
          have hEq : visitStmt (.funcDef fname args body) st
              = { { { (popBlock st.local_block (visitBlock body
                        { st with global_names := addName fname st.global_names,
                                  global_code := st.global_code ++
                                    [JavaStatement.assignStmt (.ident ("pyglobal_" ++ fname))
                                      (.createObject ("pyfunc_" ++ fname) [])],
                                  in_function := true, used_expr_discard := false,
                                  local_names := [], explicit_globals := [],
                                  n_temps := 0, local_block := some [] })).1 with
                      n_temps := st.n_temps } with
                    functions := assocSet
                      (visitBlock body
                        { st with global_names := addName fname st.global_names,
                                  global_code := st.global_code ++
                                    [JavaStatement.assignStmt (.ident ("pyglobal_" ++ fname))
                                      (.createObject ("pyfunc_" ++ fname) [])],
                                  in_function := true, used_expr_discard := false,
                                  local_names := [], explicit_globals := [],
                                  n_temps := 0, local_block := some [] }).functions fname
                      (func_code fname args
                        (visitBlock body
                          { st with global_names := addName fname st.global_names,
                                    global_code := st.global_code ++
                                      [JavaStatement.assignStmt (.ident ("pyglobal_" ++ fname))
                                        (.createObject ("pyfunc_" ++ fname) [])],
                                    in_function := true, used_expr_discard := false,
                                    local_names := [], explicit_globals := [],
                                    n_temps := 0, local_block := some [] }).used_expr_discard
                        (visitBlock body
                          { st with global_names := addName fname st.global_names,
                                    global_code := st.global_code ++
                                      [JavaStatement.assignStmt (.ident ("pyglobal_" ++ fname))
                                        (.createObject ("pyfunc_" ++ fname) [])],
                                    in_function := true, used_expr_discard := false,
                                    local_names := [], explicit_globals := [],
                                    n_temps := 0, local_block := some [] }).local_names
                        (popBlock st.local_block (visitBlock body
                          { st with global_names := addName fname st.global_names,
                                    global_code := st.global_code ++
                                      [JavaStatement.assignStmt (.ident ("pyglobal_" ++ fname))
                                        (.createObject ("pyfunc_" ++ fname) [])],
                                    in_function := true, used_expr_discard := false,
                                    local_names := [], explicit_globals := [],
                                    n_temps := 0, local_block := some [] })).2) } with
                  in_function := false } := by
            simp [visitStmt, hif, popBlock]
          rw [hEq]
          refine ⟨h5, hif.symm, h7, le_refl _, ?_⟩
          cases hL : st.local_block with
          | none =>
              simp only [hL]
              refine ⟨rfl,
                [JavaStatement.assignStmt (.ident ("pyglobal_" ++ fname))
                  (.createObject ("pyfunc_" ++ fname) [])] ++ gapp,
                h3.trans (List.append_assoc _ _ _), ?_⟩
              exact breaksAmb_append _ _ _ (breaksAmb_no_breaks _ _ rfl)
                (breaksAmb_no_breaks _ _ h4)
          | some b =>
              simp only [hL]
              refine ⟨⟨[], by simp only [List.append_nil]; rfl, breaksAmb_nil _⟩,
                [JavaStatement.assignStmt (.ident ("pyglobal_" ++ fname))
                  (.createObject ("pyfunc_" ++ fname) [])] ++ gapp,
                h3.trans (List.append_assoc _ _ _), ?_⟩
              rw [blockOuterBreakLabels_append, h4]
              rfl

/-- A block lowering is a statement frame (composition of its statements). -/
theorem visitBlock_frame : ∀ (l : List PyStmt) (st : VState), StmtFrame st (visitBlock l st)
  | [], st => stmtFrame_refl st
  | s :: rest, st =>
      stmtFrame_trans (visitStmt_frame s st) (visitBlock_frame rest (visitStmt s st))

end

mutual

/-- All break labels of a statement, descending also into loop bodies
(used to inspect concrete lowered programs). -/
def stmtAllBreakLabels : JavaStatement → List (Option String)
  | .breakStmt n => [n]
  | .ifStmt _ b o => blockAllBreakLabels b ++ blockAllBreakLabels o
  | .whileStmt _ b => blockAllBreakLabels b
  | .forStmt _ _ _ _ _ _ b => blockAllBreakLabels b
  | .tryStmt tb _ _ cb fb =>
      blockAllBreakLabels tb ++ blockAllBreakLabels cb ++ blockAllBreakLabels fb
  | .labeledBlock _ b => blockAllBreakLabels b
  | _ => []

/-- stmtAllBreakLabels over a statement list. -/
def blockAllBreakLabels : List JavaStatement → List (Option String)
  | [] => []
  | s :: r => stmtAllBreakLabels s ++ blockAllBreakLabels r

end

mutual

/-- All labeled-block names of a statement, in emission order. -/
def stmtLabelNames : JavaStatement → List String
  | .ifStmt _ b o => blockLabelNames b ++ blockLabelNames o
  | .whileStmt _ b => blockLabelNames b
  | .forStmt _ _ _ _ _ _ b => blockLabelNames b
  | .tryStmt tb _ _ cb fb =>
      blockLabelNames tb ++ blockLabelNames cb ++ blockLabelNames fb
  | .labeledBlock n b => n :: blockLabelNames b
  | _ => []

/-- stmtLabelNames over a statement list. -/
def blockLabelNames : List JavaStatement → List String
  | [] => []
  | s :: r => stmtLabelNames s ++ blockLabelNames r

end

/-- Every break escaping the statements appended by one lowered source
statement targets the ambient break label of the incoming state. -/
theorem appendedBy_breaksAmb (s : PyStmt) (st : VState) :
    BreaksAmb (appendedBy s st) st.break_name := by
  obtain ⟨hb, hf, ha, hn, hc⟩ := visitStmt_frame s st
  intro x hx
  unfold appendedBy curCode at hx
  cases hL : st.local_block with
  | none =>
      rw [hL] at hc
      obtain ⟨hl', app, hg, hB⟩ := hc
      rw [hL, hl', hg, List.drop_left] at hx
      exact hB x hx
  | some b =>
      rw [hL] at hc
      obtain ⟨⟨app, hl', hB⟩, _⟩ := hc
      rw [hL, hl'] at hx
      rw [List.drop_left] at hx
      exact hB x hx

/-- visit_While without else: the body block extracted by new_block after
lowering the body with installed break label none. -/
def whileNoElseBodyBlock (test : PyExpr) (body : List PyStmt) (st : VState) :
    List JavaStatement :=
  (popBlock (visitExpr test st).1.local_block
    (visitBlock body
      { (visitExpr test st).1 with break_name := none, local_block := some [] })).2

/-- visit_While with else: the fresh label allocated by make_temp after the
test is lowered. -/
def whileElseLabel (test : PyExpr) (st : VState) : String :=
  tempName (visitExpr test st).1.n_temps

/-- visit_While with else: the state and body block after lowering the body
with the fresh label installed. -/
def whileElseBodyPop (test : PyExpr) (body : List PyStmt) (st : VState) :
    VState × List JavaStatement :=
  popBlock (make_temp (visitExpr test st).1).1.local_block
    (visitBlock body
      { (make_temp (visitExpr test st).1).1 with
          break_name := some (whileElseLabel test st), local_block := some [] })

/-- visit_While with else: the state after the saved break label is
restored (the st4 of the source). -/
def whileElseRestored (test : PyExpr) (body : List PyStmt) (st : VState) : VState :=
  { (whileElseBodyPop test body st).1 with break_name := (visitExpr test st).1.break_name }

/-- visit_While with else: the state and else block after lowering the else
suite under the restored break label. -/
def whileElseOrelsePop (test : PyExpr) (body orelse : List PyStmt) (st : VState) :
    VState × List JavaStatement :=
  popBlock (whileElseRestored test body st).local_block
    (visitBlock orelse { whileElseRestored test body st with local_block := some [] })

/-- visit_For: the state after the iterator temporaries are allocated and
the iterator expression is lowered and bound, without an else clause (the
st5 of the source; make_temp runs twice before the iterator is visited). -/
def forNoElseSt5 (iter : PyExpr) (st : VState) : VState :=
  pushCode (.variableDecl "var" (make_temp st).2
      (some (.methodCall (visitExpr iter (make_temp (make_temp st).1).1).2 "iter" [])))
    (visitExpr iter (make_temp (make_temp st).1).1).1

/-- visit_For without else: the body block extracted by new_block after
lowering the body with installed break label none. -/
def forNoElseBodyBlock (iter : PyExpr) (body : List PyStmt) (st : VState) :
    List JavaStatement :=
  (popBlock (forNoElseSt5 iter st).local_block
    (visitBlock body
      { forNoElseSt5 iter st with break_name := none, local_block := some [] })).2

/-- visit_For with else: the fresh label, allocated before the iterator
temporaries. -/
def forElseLabel (st : VState) : String := tempName st.n_temps

/-- visit_For with else: the state after label and iterator temporaries are
allocated and the iterator is lowered and bound. -/
def forElseSt5 (iter : PyExpr) (st : VState) : VState :=
  pushCode (.variableDecl "var" (make_temp (make_temp st).1).2
      (some (.methodCall
        (visitExpr iter (make_temp (make_temp (make_temp st).1).1).1).2 "iter" [])))
    (visitExpr iter (make_temp (make_temp (make_temp st).1).1).1).1

/-- visit_For with else: the state and body block after lowering the body
with the fresh label installed. -/
def forElseBodyPop (iter : PyExpr) (body : List PyStmt) (st : VState) :
    VState × List JavaStatement :=
  popBlock (forElseSt5 iter st).local_block
    (visitBlock body
      { forElseSt5 iter st with break_name := some (forElseLabel st), local_block := some [] })

/-- visit_For with else: the state after the break label is restored and
the loop target name is bound. -/
def forElseBound (target : String) (iter : PyExpr) (body : List PyStmt) (st : VState) :
    VState :=
  namesAdd target
    { (forElseBodyPop iter body st).1 with break_name := (forElseSt5 iter st).break_name }

/-- visit_For with else: the state and else block after lowering the else
suite under the restored break label. -/
def forElseOrelsePop (target : String) (iter : PyExpr) (body orelse : List PyStmt)
    (st : VState) : VState × List JavaStatement :=
  popBlock (forElseBound target iter body st).local_block
    (visitBlock orelse { forElseBound target iter body st with local_block := some [] })

/-- C10: lowering of every while and for loop saves the active break label,
installs its own for the duration of the body only — a fresh temp label when
the loop has an else clause, none otherwise — and restores the saved label
afterwards.  Conjunct 1: the visitor's break label is unchanged by every
lowered statement.  Conjunct 2: every break escaping the statements a
lowered statement appends targets the ambient (innermost enclosing) label.
Conjunct 3/5: the body of a while/for loop without else is lowered under
label none, so all its escaping breaks are unlabeled.  Conjunct 4/6: with an
else clause the emitted loop is wrapped in a labeled block carrying exactly
the freshly allocated temporary label, the lowered body's escaping breaks
all carry that fresh label, the else suite's breaks carry the restored
ambient label, and the label counter never runs behind the incoming state's.
Conjunct 7: in the nested program while a: (while b: break; else: pass);
else: pass, the only emitted break carries the inner loop's label temp1,
the emitted labeled blocks are temp0 (outer) and temp1 (inner), and the two
labels are distinct — the break targets its innermost loop, not the outer
one. -/
theorem break_label_discipline :
    (∀ (s : PyStmt) (st : VState), (visitStmt s st).break_name = st.break_name) ∧
    (∀ (s : PyStmt) (st : VState), BreaksAmb (appendedBy s st) st.break_name) ∧
    (∀ (test : PyExpr) (body : List PyStmt) (st : VState),
      BreaksAmb (whileNoElseBodyBlock test body st) none) ∧
    (∀ (test : PyExpr) (body : List PyStmt) (o : PyStmt) (os : List PyStmt) (st : VState),
      visitStmt (.sWhile test body (o :: os)) st
        = pushCode
            (javaLabeledBlock (whileElseLabel test st)
              (while_statement (bool_value (visitExpr test st).2)
                  (whileElseBodyPop test body st).2
                ++ (whileElseOrelsePop test body (o :: os) st).2))
            (whileElseOrelsePop test body (o :: os) st).1
      ∧ BreaksAmb (whileElseBodyPop test body st).2 (some (whileElseLabel test st))
      ∧ BreaksAmb (whileElseOrelsePop test body (o :: os) st).2 st.break_name
      ∧ st.n_temps ≤ (visitExpr test st).1.n_temps) ∧
    (∀ (iter : PyExpr) (body : List PyStmt) (st : VState),
      BreaksAmb (forNoElseBodyBlock iter body st) none) ∧
    (∀ (target : String) (iter : PyExpr) (body : List PyStmt) (o : PyStmt) (os : List PyStmt)
      (st : VState),
      visitStmt (.sFor target iter body (o :: os)) st
        = pushCode
            (javaLabeledBlock (forElseLabel st)
              ([javaForStatement "var" (make_temp (make_temp (make_temp st).1).1).2
                  (.methodCall (.ident (make_temp (make_temp st).1).2) "next" [])
                  (.binaryOp "!="
                    (.ident (make_temp (make_temp (make_temp st).1).1).2) (.ident "null"))
                  (make_temp (make_temp (make_temp st).1).1).2
                  (.methodCall (.ident (make_temp (make_temp st).1).2) "next" [])
                  ([.assignStmt (ident_expr (forElseBound target iter body st) target)
                      (.ident (make_temp (make_temp (make_temp st).1).1).2)]
                    ++ (forElseBodyPop iter body st).2)]
                ++ (forElseOrelsePop target iter body (o :: os) st).2))
            (forElseOrelsePop target iter body (o :: os) st).1
      ∧ BreaksAmb (forElseBodyPop iter body st).2 (some (forElseLabel st))
      ∧ BreaksAmb (forElseOrelsePop target iter body (o :: os) st).2 st.break_name) ∧
    (blockAllBreakLabels
        (visitStmt (.sWhile (.name "a") [.sWhile (.name "b") [.brk] [.pass]] [.pass])
          initState).global_code = [some "temp1"]
      ∧ blockLabelNames
          (visitStmt (.sWhile (.name "a") [.sWhile (.name "b") [.brk] [.pass]] [.pass])
            initState).global_code = ["temp0", "temp1"]
      ∧ "temp1" ≠ "temp0") := by
  refine ⟨fun s st => (visitStmt_frame s st).1, appendedBy_breaksAmb, ?_, ?_, ?_, ?_, ?_⟩
  · intro test body st
    exact breaksAmb_popBlock (visitExpr test st).1 none _ _ (visitBlock_frame body _)
  · intro test body o os st
    refine ⟨rfl, ?_, ?_, (visitExpr_frame test st).2.2.2.1⟩
    · exact breaksAmb_popBlock (make_temp (visitExpr test st).1).1
        (some (whileElseLabel test st)) _ _ (visitBlock_frame body _)
    · exact breaksAmb_congr (visitExpr_frame test st).1
        (breaksAmb_popBlock (whileElseRestored test body st)
          ((whileElseRestored test body st).break_name) _ _
          (visitBlock_frame (o :: os) _))
  · intro iter body st
    exact breaksAmb_popBlock (forNoElseSt5 iter st) none _ _ (visitBlock_frame body _)
  · intro target iter body o os st
    refine ⟨rfl, ?_, ?_⟩
    · exact breaksAmb_popBlock (forElseSt5 iter st)
        (some (forElseLabel st)) _ _ (visitBlock_frame body _)
    · refine breaksAmb_congr ?_
        (breaksAmb_popBlock (forElseBound target iter body st)
          ((forElseBound target iter body st).break_name) _ _
          (visitBlock_frame (o :: os) _))
      exact (stmtFrame_namesAdd target _).1.trans
        ((stmtFrame_pushes [.variableDecl "var" (make_temp (make_temp st).1).2
            (some (.methodCall
              (visitExpr iter (make_temp (make_temp (make_temp st).1).1).1).2 "iter" []))]
          (visitExpr iter (make_temp (make_temp (make_temp st).1).1).1).1
          (breaksAmb_no_breaks _ _ rfl)).1.trans
        (visitExpr_frame iter (make_temp (make_temp (make_temp st).1).1).1).1)
  · exact ⟨by decide, by decide, by decide⟩

/-- C10 witness: the discipline applied at concrete inputs — a lowered
while-with-else from the initial state keeps the break label unchanged, and
a lowered bare break appends exactly one break carrying the ambient label. -/
theorem break_label_discipline_witness :
    (visitStmt (.sWhile (.name "b") [.brk] [.pass]) initState).break_name
        = initState.break_name
      ∧ BreaksAmb (appendedBy .brk initState) initState.break_name :=
  ⟨break_label_discipline.1 (.sWhile (.name "b") [.brk] [.pass]) initState,
   break_label_discipline.2.1 .brk initState⟩
